import Mathlib

/-!
# Door access controller: ring buffer, command accumulator, door state machine

A shallow embedding of `Core/Src/ring_buffer.c` and `Core/Src/system.c`.

Conventions of the embedding.

* `uint8_t` / `uint32_t` values are natural numbers; where the C arithmetic can
  leave the range of its type the reduction modulo `2^8` / `2^32` is written out.
* C truth values are the numbers `0` and `1`, as in the source.
* Global variables (`door_state`, `door_timer`, `key_buffer`, `key_index`) are the
  fields of an explicit state record that every handler takes and returns.
* `HAL_GetTick()` is the argument `now` of the function that calls it.
* `printf` and `HAL_GPIO_WritePin` write to peripherals that no handler reads
  back; they are not part of the state record.
* The constants `PASSWORD` and `KEYPAD_BUFFER_SIZE` come from `main.h`, which is
  not among the sources; they are arguments of the functions that use them.
* Memory regions (`rb->buffer`, `key_buffer`, `cmd`) are lists of bytes; a store
  is `List.set`, a load is `List.getD _ _ 0`.
* With `capacity = 0` the C expression `x % capacity` has no defined value; the
  functions below are total (`x % 0 = x` on natural numbers), and every theorem
  about a write or a read assumes `ring_buffer_wf`, which has `1 ≤ capacity`.
-/

namespace DoorControl

/-! ## ring_buffer.c -/

/-- Modelled from the spec: the record `ring_buffer_t` is declared in
`ring_buffer.h`, which is not among the sources. The spec gives it backing
storage of `capacity` bytes, `head` (next write index), `tail` (next read
index) and a `full` flag; `ring_buffer.c` uses exactly the fields below, and
takes `capacity` as a `uint8_t`. -/
structure ring_buffer_t where
  buffer : List Nat
  capacity : Nat
  head : Nat
  tail : Nat
  is_full : Nat
deriving DecidableEq

/-- Source `ring_buffer_init`: a `void` function without a failure path. -/
def ring_buffer_init (mem_add : List Nat) (capacity : Nat) : ring_buffer_t :=
  { buffer := mem_add, capacity := capacity, head := 0, tail := 0, is_full := 0 }

/-- Source `ring_buffer_reset`. -/
def ring_buffer_reset (rb : ring_buffer_t) : ring_buffer_t :=
  { rb with head := 0, tail := 0, is_full := 0 }

/-- Source `ring_buffer_size`. The second branch is computed in `int` and
converted to the `uint8_t` return type, hence the reduction modulo 256 (the
offset 256 keeps the natural-number subtraction exact for `tail ≤ 255`). -/
def ring_buffer_size (rb : ring_buffer_t) : Nat :=
  if rb.is_full ≠ 0 then rb.capacity
  else if rb.head ≥ rb.tail then rb.head - rb.tail
  else (rb.capacity + 256 - rb.tail + rb.head) % 256

/-- Source `ring_buffer_is_full`. -/
def ring_buffer_is_full (rb : ring_buffer_t) : Nat := rb.is_full

/-- Source `ring_buffer_is_empty`. -/
def ring_buffer_is_empty (rb : ring_buffer_t) : Nat :=
  if rb.is_full = 0 ∧ rb.head = rb.tail then 1 else 0

/-- Source `ring_buffer_write`. -/
def ring_buffer_write (rb : ring_buffer_t) (data : Nat) : ring_buffer_t :=
  let buffer := rb.buffer.set rb.head data
  let head := (rb.head + 1) % rb.capacity
  let tail := if rb.is_full ≠ 0 then (rb.tail + 1) % rb.capacity else rb.tail
  { buffer := buffer, capacity := rb.capacity, head := head, tail := tail,
    is_full := if head = tail then 1 else 0 }

/-- Source `ring_buffer_read`. The argument `byte` is the value held by the
output location `*byte` before the call; the result is the new buffer, the
return value and the value of `*byte` after the call. -/
def ring_buffer_read (rb : ring_buffer_t) (byte : Nat) : ring_buffer_t × Nat × Nat :=
  if ring_buffer_is_empty rb ≠ 0 then (rb, 0, byte)
  else
    ({ rb with tail := (rb.tail + 1) % rb.capacity, is_full := 0 }, 1,
      rb.buffer.getD rb.tail 0)

/-- The bytes of `ws` written one after the other with `ring_buffer_write`. -/
def ring_buffer_write_all (rb : ring_buffer_t) (ws : List Nat) : ring_buffer_t :=
  ws.foldl ring_buffer_write rb

/-- Calls `ring_buffer_read` until it reports an empty buffer, at most `fuel`
times; returns the bytes read, in the order read, and the buffer left. -/
def ring_buffer_read_all : Nat → ring_buffer_t → List Nat × ring_buffer_t
  | 0, rb => ([], rb)
  | fuel + 1, rb =>
    match ring_buffer_read rb 0 with
    | (rb1, ret, byte) =>
      if ret = 0 then ([], rb1)
      else ((byte :: (ring_buffer_read_all fuel rb1).1), (ring_buffer_read_all fuel rb1).2)

/-- Well-formed ring buffer: a capacity in `1..255` backed by at least that
many bytes, both indices inside `[0, capacity)`, and the full flag only raised
when the indices coincide. -/
def ring_buffer_wf (rb : ring_buffer_t) : Prop :=
  1 ≤ rb.capacity ∧ rb.capacity ≤ 255 ∧ rb.capacity ≤ rb.buffer.length ∧
  rb.head < rb.capacity ∧ rb.tail < rb.capacity ∧
  (rb.is_full ≠ 0 → rb.head = rb.tail)

instance (rb : ring_buffer_t) : Decidable (ring_buffer_wf rb) := by
  unfold ring_buffer_wf; infer_instance

/-- The index invariant of the ring buffer taken alone: both indices inside
`[0, capacity)` and the full flag only raised when they coincide. -/
def ring_buffer_inv (rb : ring_buffer_t) : Prop :=
  rb.head < rb.capacity ∧ rb.tail < rb.capacity ∧ (rb.is_full ≠ 0 → rb.head = rb.tail)

instance (rb : ring_buffer_t) : Decidable (ring_buffer_inv rb) := by
  unfold ring_buffer_inv; infer_instance

/-- The unread bytes of a buffer, oldest first: the `ring_buffer_size` cells
starting at `tail`, wrapping at `capacity`. -/
def ring_buffer_contents (rb : ring_buffer_t) : List Nat :=
  (List.range (ring_buffer_size rb)).map
    (fun j => rb.buffer.getD ((rb.tail + j) % rb.capacity) 0)

/-! ## system.c -/

/-- Source `door_state_t` (system.h). -/
inductive door_state_t where
  | STATE_CERRADO
  | STATE_ABIERTO_TEMPORAL
  | STATE_ABIERTO_PERMANENTE
deriving DecidableEq

open door_state_t

/-- The global variables of `system.c`. -/
structure system_t where
  door_state : door_state_t
  door_timer : Nat
  key_buffer : List Nat
  key_index : Nat
deriving DecidableEq

/-- Unsigned 32-bit subtraction `a - b`. -/
def sub_u32 (a b : Nat) : Nat :=
  (a % 2 ^ 32 + (2 ^ 32 - b % 2 ^ 32)) % 2 ^ 32

/-- The C string held by a byte region: its bytes before the first NUL. -/
def c_string (s : List Nat) : List Nat := s.takeWhile (fun b => b ≠ 0)

/-- The C library `strcmp` on two byte regions; the end of a region reads as
the terminating NUL. The result is the difference of the first two bytes that
differ, `0` when the two C strings are equal. -/
def strcmp : List Nat → List Nat → Int
  | [], [] => 0
  | [], b :: _ => 0 - (b : Int)
  | a :: _, [] => (a : Int)
  | a :: as, b :: bs =>
    if a ≠ b then (a : Int) - (b : Int)
    else if a = 0 then 0
    else strcmp as bs

/-- The string literal `"#*O*#"`. -/
def DEBUG_OPEN : List Nat := [35, 42, 79, 42, 35]

/-- The string literal `"#*C*#"`. -/
def DEBUG_CLOSE : List Nat := [35, 42, 67, 42, 35]

/-- Source `system_state_machine`, with `now = HAL_GetTick()`. -/
def system_state_machine (now : Nat) (s : system_t) : system_t :=
  match s.door_state with
  | STATE_CERRADO => s
  | STATE_ABIERTO_TEMPORAL =>
    if sub_u32 now s.door_timer > 5000 then { s with door_state := STATE_CERRADO } else s
  | STATE_ABIERTO_PERMANENTE => s

/-- Source `system_events_handler_button`, with `now = HAL_GetTick()`. -/
def system_events_handler_button (now : Nat) (s : system_t) (press_count : Nat) : system_t :=
  if press_count = 1 then
    if s.door_state = STATE_CERRADO then
      { s with door_state := STATE_ABIERTO_TEMPORAL, door_timer := now }
    else if s.door_state = STATE_ABIERTO_PERMANENTE then
      { s with door_state := STATE_CERRADO }
    else s
  else if press_count = 2 then
    { s with door_state := STATE_ABIERTO_PERMANENTE }
  else s

/-- Source `system_events_handler_cmd`, with `now = HAL_GetTick()`; `cmd` is the
byte region the argument points to. -/
def system_events_handler_cmd (PASSWORD : List Nat) (now : Nat) (s : system_t)
    (cmd : List Nat) : system_t :=
  if strcmp cmd DEBUG_OPEN = 0 then
    { s with door_state := STATE_ABIERTO_PERMANENTE }
  else if strcmp cmd DEBUG_CLOSE = 0 then
    { s with door_state := STATE_CERRADO }
  else if strcmp cmd PASSWORD = 0 then
    { s with door_state := STATE_ABIERTO_TEMPORAL, door_timer := now }
  else s

/-- Source `system_events_handler_key`, with `now = HAL_GetTick()`. The second
component is not in the source: it records the C string held by `key_buffer`
at the comparisons when the call completes a command, `none` otherwise.
`key_index` is a `uint8_t`, so its increment is taken modulo 256. -/
def system_events_handler_key (PASSWORD : List Nat) (KEYPAD_BUFFER_SIZE : Nat) (now : Nat)
    (s : system_t) (key : Nat) : system_t × Option (List Nat) :=
  let s1 : system_t :=
    if s.key_index < KEYPAD_BUFFER_SIZE - 1 then
      { s with key_buffer := s.key_buffer.set s.key_index key,
               key_index := (s.key_index + 1) % 256 }
    else s
  if key = 35 ∨ s1.key_index ≥ KEYPAD_BUFFER_SIZE - 1 then
    let s2 : system_t := { s1 with key_buffer := s1.key_buffer.set s1.key_index 0 }
    let s3 : system_t :=
      if strcmp s2.key_buffer DEBUG_OPEN = 0 then
        { s2 with door_state := STATE_ABIERTO_PERMANENTE }
      else if strcmp s2.key_buffer DEBUG_CLOSE = 0 then
        { s2 with door_state := STATE_CERRADO }
      else if strcmp s2.key_buffer PASSWORD = 0 then
        { s2 with door_state := STATE_ABIERTO_TEMPORAL, door_timer := now }
      else s2
    ({ s3 with key_index := 0, key_buffer := List.replicate KEYPAD_BUFFER_SIZE 0 },
     some (c_string s2.key_buffer))
  else (s1, none)

/-- The state of the keypad accumulator between two calls of
`system_events_handler_key`: `key_buffer` has its declared size, `key_index`
is an 8-bit value below the last cell, and no cell below `key_index` holds
`'#'`. -/
def keypad_inv (KEYPAD_BUFFER_SIZE : Nat) (s : system_t) : Prop :=
  s.key_buffer.length = KEYPAD_BUFFER_SIZE ∧ s.key_index < KEYPAD_BUFFER_SIZE - 1 ∧
  s.key_index < 256 ∧ ∀ k, k < s.key_index → s.key_buffer.getD k 0 ≠ 35

instance (KEYPAD_BUFFER_SIZE : Nat) (s : system_t) : Decidable (keypad_inv KEYPAD_BUFFER_SIZE s) := by
  unfold keypad_inv; infer_instance

/-- Feeds a list of keystrokes to `system_events_handler_key`, one call per
key; returns the final state and the commands completed, in order. -/
def system_feed_keys (PASSWORD : List Nat) (KEYPAD_BUFFER_SIZE : Nat) (now : Nat) :
    system_t → List Nat → system_t × List (List Nat)
  | s, [] => (s, [])
  | s, key :: keys =>
    let r := system_events_handler_key PASSWORD KEYPAD_BUFFER_SIZE now s key
    let rest := system_feed_keys PASSWORD KEYPAD_BUFFER_SIZE now r.1 keys
    (rest.1, r.2.toList ++ rest.2)

/-- The local variables of `process_uart_commands` that live across loop
iterations, the globals, and (not in the source) the list of C strings passed
so far to `system_events_handler_cmd`. -/
structure uart_line_t where
  cmd : List Nat
  i : Nat
  sys : system_t
  emitted : List (List Nat)
deriving DecidableEq

/-- The body of the `while` loop of `process_uart_commands` after the call of
`ring_buffer_read`, for the byte `ch` it delivered. `sizeof(cmd) - 1` is 31. -/
def process_uart_byte (PASSWORD : List Nat) (now : Nat) (l : uart_line_t) (ch : Nat) :
    uart_line_t :=
  if ch = 13 ∨ ch = 10 then
    if l.i > 0 then
      let cmd := l.cmd.set l.i 0
      { cmd := cmd, i := 0,
        sys := system_events_handler_cmd PASSWORD now l.sys cmd,
        emitted := l.emitted ++ [c_string cmd] }
    else l
  else
    if l.i < 31 then { l with cmd := l.cmd.set l.i ch, i := l.i + 1 }
    else l

/-- The `while` loop of `process_uart_commands`, run for at most `fuel`
evaluations of its condition; `none` when the loop has not ended by then.
`ch0` is the indeterminate initial value of the local `ch`, which is what the
body would see if `ring_buffer_read` returned without storing a byte. -/
def process_uart_loop (PASSWORD : List Nat) (now : Nat) (ch0 : Nat) :
    Nat → ring_buffer_t → uart_line_t → Option (ring_buffer_t × uart_line_t)
  | 0, _, _ => none
  | fuel + 1, rb, l =>
    if ring_buffer_size rb > 0 then
      match ring_buffer_read rb ch0 with
      | (rb1, _, ch) =>
        process_uart_loop PASSWORD now ch0 fuel rb1 (process_uart_byte PASSWORD now l ch)
    else some (rb, l)

/-- Source `process_uart_commands`. `cmd0` is the indeterminate initial
content of the 32-byte local array `cmd`. -/
def process_uart_commands (PASSWORD : List Nat) (now : Nat) (ch0 : Nat) (cmd0 : List Nat)
    (fuel : Nat) (rb : ring_buffer_t) (s : system_t) :
    Option (ring_buffer_t × system_t × List (List Nat)) :=
  match process_uart_loop PASSWORD now ch0 fuel rb
      { cmd := cmd0, i := 0, sys := s, emitted := [] } with
  | none => none
  | some (rb1, l) => some (rb1, l.sys, l.emitted)

/-! ## The operations as the specification words them -/

/-- The error of the specification's `init`. -/
inductive ring_buffer_error where
  | InvalidCapacity
deriving DecidableEq

/-- The specification's `init(capacity)`: "sets capacity, clears
head/tail/full. Fails with `InvalidCapacity` if capacity is 0." -/
def ring_buffer_init_spec (mem_add : List Nat) (capacity : Nat) :
    Except ring_buffer_error ring_buffer_t :=
  if capacity = 0 then Except.error ring_buffer_error.InvalidCapacity
  else Except.ok { buffer := mem_add, capacity := capacity, head := 0, tail := 0, is_full := 0 }

/-! ## Lists as memory regions -/

theorem getD_set (l : List Nat) (i k v : Nat) :
    (l.set i v).getD k 0 = if i = k ∧ i < l.length then v else l.getD k 0 := by
  simp only [List.getD_eq_getElem?_getD, List.getElem?_set]
  by_cases h : i = k
  · by_cases h2 : i < l.length
    · subst h; simp [h2]
    · subst h; simp [h2, List.getElem?_eq_none (Nat.le_of_not_lt h2)]
  · simp [h]

theorem getD_tail (l : List Nat) (j : Nat) : l.tail.getD j 0 = l.getD (j + 1) 0 := by
  cases l <;> simp

theorem getD_snoc (l : List Nat) (b j : Nat) :
    (l ++ [b]).getD j 0 = if j < l.length then l.getD j 0 else if j = l.length then b else 0 := by
  by_cases h : j < l.length
  · simp only [h, if_true, List.getD_eq_getElem?_getD]
    rw [List.getElem?_append_left h]
  · simp only [h, if_false]
    rw [List.getD_append_right _ _ _ _ (by omega)]
    by_cases h2 : j = l.length
    · subst h2; simp
    · have : j - l.length = (j - l.length - 1) + 1 := by omega
      rw [this]; simp [h2]

theorem ext_getD (l1 l2 : List Nat) (hl : l1.length = l2.length)
    (h : ∀ j, j < l1.length → l1.getD j 0 = l2.getD j 0) : l1 = l2 := by
  apply List.ext_getElem hl
  intro n h1 h2
  have := h n h1
  rwa [List.getD_eq_getElem _ _ h1, List.getD_eq_getElem _ _ h2] at this

theorem mod_wrap (N x : Nat) (h : x < 2 * N) : x % N = if x < N then x else x - N := by
  split_ifs with h1
  · exact Nat.mod_eq_of_lt h1
  · rw [Nat.mod_eq_sub_mod (by omega)]; exact Nat.mod_eq_of_lt (by omega)

/-! ## Ring buffer: the unread bytes as a list -/

theorem ring_buffer_size_of_wf (rb : ring_buffer_t) (h : ring_buffer_wf rb) :
    ring_buffer_size rb =
      if rb.is_full ≠ 0 then rb.capacity
      else if rb.tail ≤ rb.head then rb.head - rb.tail
      else rb.capacity - rb.tail + rb.head := by
  obtain ⟨h1, h2, _, h4, h5, _⟩ := h
  unfold ring_buffer_size
  split_ifs <;> omega

theorem ring_buffer_size_le (rb : ring_buffer_t) (h : ring_buffer_wf rb) :
    ring_buffer_size rb ≤ rb.capacity := by
  rw [ring_buffer_size_of_wf rb h]
  obtain ⟨h1, h2, _, h4, h5, _⟩ := h
  split_ifs <;> omega

theorem ring_buffer_contents_length (rb : ring_buffer_t) :
    (ring_buffer_contents rb).length = ring_buffer_size rb := by
  simp [ring_buffer_contents]

theorem ring_buffer_contents_getD (rb : ring_buffer_t) (j : Nat)
    (hj : j < ring_buffer_size rb) :
    (ring_buffer_contents rb).getD j 0 =
      rb.buffer.getD ((rb.tail + j) % rb.capacity) 0 := by
  have hl : j < (ring_buffer_contents rb).length := by
    rw [ring_buffer_contents_length]; exact hj
  rw [List.getD_eq_getElem _ _ hl]
  simp [ring_buffer_contents]

theorem ring_buffer_write_wf (rb : ring_buffer_t) (b : Nat) (h : ring_buffer_wf rb) :
    ring_buffer_wf (ring_buffer_write rb b) := by
  obtain ⟨h1, h2, h3, h4, h5, h6⟩ := h
  have hm : ∀ x, x % rb.capacity < rb.capacity := fun x => Nat.mod_lt _ (by omega)
  refine ⟨h1, h2, ?_, hm _, ?_, ?_⟩
  · simpa [ring_buffer_write] using h3
  · simp only [ring_buffer_write]; split_ifs
    · exact hm _
    · exact h5
  · simp only [ring_buffer_write]
    intro hf
    by_contra hne
    exact hf (if_neg hne)

theorem ring_buffer_write_size (rb : ring_buffer_t) (b : Nat) (h : ring_buffer_wf rb) :
    ring_buffer_size (ring_buffer_write rb b) = min (ring_buffer_size rb + 1) rb.capacity := by
  rw [ring_buffer_size_of_wf _ (ring_buffer_write_wf rb b h), ring_buffer_size_of_wf rb h]
  obtain ⟨h1, h2, h3, h4, h5, h6⟩ := h
  simp only [ring_buffer_write]
  rw [mod_wrap rb.capacity (rb.head + 1) (by omega), mod_wrap rb.capacity (rb.tail + 1) (by omega)]
  by_cases hf : rb.is_full ≠ 0
  · have := h6 hf
    simp only [hf, if_true, this]
    split_ifs <;> omega
  · simp only [hf, if_false]
    split_ifs <;> omega

theorem ring_buffer_write_contents (rb : ring_buffer_t) (b : Nat) (h : ring_buffer_wf rb) :
    ring_buffer_contents (ring_buffer_write rb b) =
      (if rb.is_full ≠ 0 then (ring_buffer_contents rb).tail else ring_buffer_contents rb)
        ++ [b] := by
  have hsz := ring_buffer_write_size rb b h
  have hs := ring_buffer_size_of_wf rb h
  obtain ⟨h1, h2, h3, h4, h5, h6⟩ := h
  by_cases hf : rb.is_full ≠ 0
  · have hht := h6 hf
    rw [if_pos hf] at hs
    rw [if_pos hf]
    apply ext_getD
    · rw [ring_buffer_contents_length, hsz]
      simp only [List.length_append, List.length_tail, ring_buffer_contents_length,
        List.length_singleton]
      omega
    · intro j hj
      rw [ring_buffer_contents_length] at hj
      rw [ring_buffer_contents_getD _ _ hj, getD_snoc]
      rw [hsz] at hj
      simp only [List.length_tail, ring_buffer_contents_length, getD_tail]
      simp only [ring_buffer_write, if_pos hf, getD_set]
      rw [mod_wrap rb.capacity (rb.tail + 1) (by omega)]
      by_cases hj2 : j < ring_buffer_size rb - 1
      · rw [ring_buffer_contents_getD _ _ (by omega)]
        rw [mod_wrap rb.capacity (rb.tail + (j + 1)) (by omega)]
        rw [if_pos hj2]
        split_ifs
        all_goals first
          | omega
          | rfl
          | (congr 1; omega)
          | (rw [mod_wrap _ _ (by omega)] at *; split_ifs at * <;> first | omega | (congr 1; omega))
      · rw [if_neg hj2]
        have hje : j = ring_buffer_size rb - 1 := by omega
        rw [if_pos hje]
        split_ifs
        all_goals first
          | omega
          | rfl
          | (rw [mod_wrap _ _ (by omega)] at *; split_ifs at * <;> omega)
  · rw [if_neg hf] at hs
    rw [if_neg hf]
    have hlt : ring_buffer_size rb < rb.capacity := by split_ifs at hs <;> omega
    apply ext_getD
    · rw [ring_buffer_contents_length, hsz]
      simp only [List.length_append, ring_buffer_contents_length, List.length_singleton]
      omega
    · intro j hj
      rw [ring_buffer_contents_length] at hj
      rw [ring_buffer_contents_getD _ _ hj, getD_snoc]
      rw [hsz] at hj
      simp only [ring_buffer_contents_length]
      simp only [ring_buffer_write, if_neg hf, getD_set]
      rw [mod_wrap rb.capacity (rb.tail + j) (by omega)]
      by_cases hj2 : j < ring_buffer_size rb
      · rw [ring_buffer_contents_getD _ _ hj2]
        rw [mod_wrap rb.capacity (rb.tail + j) (by omega)]
        rw [if_pos hj2]
        split_ifs at hs ⊢ <;> omega
      · rw [if_neg hj2]
        have hje : j = ring_buffer_size rb := by omega
        rw [if_pos hje]
        split_ifs at hs ⊢ <;> omega

/-- The record `ring_buffer_read` leaves behind when it delivers a byte. -/
theorem ring_buffer_read_of_pos (rb : ring_buffer_t) (byte : Nat)
    (h : 0 < ring_buffer_size rb) :
    ring_buffer_read rb byte =
      ({ rb with tail := (rb.tail + 1) % rb.capacity, is_full := 0 }, 1,
        rb.buffer.getD rb.tail 0) := by
  have he : ring_buffer_is_empty rb = 0 := by
    unfold ring_buffer_is_empty
    rw [if_neg]
    rintro ⟨hf, hht⟩
    simp [ring_buffer_size, hf, hht] at h
  simp [ring_buffer_read, he]

theorem ring_buffer_is_empty_iff (rb : ring_buffer_t) (h : ring_buffer_wf rb) :
    ring_buffer_is_empty rb ≠ 0 ↔ ring_buffer_size rb = 0 := by
  rw [ring_buffer_size_of_wf rb h]
  obtain ⟨h1, h2, h3, h4, h5, h6⟩ := h
  unfold ring_buffer_is_empty
  by_cases hf : rb.is_full = 0
  · by_cases hht : rb.head = rb.tail
    · simp [hf, hht]
    · simp only [hf, hht, and_false, if_false, ne_eq, not_true_eq_false, false_iff]
      split_ifs <;> omega
  · simp only [hf, false_and, if_false, ne_eq, not_true_eq_false, false_iff, not_false_eq_true,
      if_true]
    omega

theorem ring_buffer_read_of_zero (rb : ring_buffer_t) (byte : Nat) (h : ring_buffer_wf rb)
    (h0 : ring_buffer_size rb = 0) : ring_buffer_read rb byte = (rb, 0, byte) := by
  have := (ring_buffer_is_empty_iff rb h).mpr h0
  simp [ring_buffer_read, this]

theorem ring_buffer_read_wf (rb : ring_buffer_t) (h : ring_buffer_wf rb) :
    ring_buffer_wf { rb with tail := (rb.tail + 1) % rb.capacity, is_full := 0 } := by
  obtain ⟨h1, h2, h3, h4, h5, h6⟩ := h
  exact ⟨h1, h2, h3, h4, Nat.mod_lt _ (by omega), fun hf => absurd rfl hf⟩

theorem ring_buffer_read_size (rb : ring_buffer_t) (h : ring_buffer_wf rb)
    (hp : 0 < ring_buffer_size rb) :
    ring_buffer_size { rb with tail := (rb.tail + 1) % rb.capacity, is_full := 0 } =
      ring_buffer_size rb - 1 := by
  rw [ring_buffer_size_of_wf _ (ring_buffer_read_wf rb h)]
  rw [ring_buffer_size_of_wf rb h] at hp ⊢
  obtain ⟨h1, h2, h3, h4, h5, h6⟩ := h
  simp only [ne_eq, not_true_eq_false, if_false]
  rw [mod_wrap rb.capacity (rb.tail + 1) (by omega)]
  by_cases hf : rb.is_full ≠ 0
  · have := h6 hf
    rw [if_pos hf]
    split_ifs <;> omega
  · rw [if_neg hf] at hp ⊢
    split_ifs at hp ⊢ <;> omega

theorem ring_buffer_read_contents (rb : ring_buffer_t) (h : ring_buffer_wf rb)
    (hp : 0 < ring_buffer_size rb) :
    ring_buffer_contents rb =
      rb.buffer.getD rb.tail 0 ::
        ring_buffer_contents { rb with tail := (rb.tail + 1) % rb.capacity, is_full := 0 } := by
  have hsz := ring_buffer_read_size rb h hp
  have hle := ring_buffer_size_le rb h
  obtain ⟨h1, h2, h3, h4, h5, h6⟩ := h
  apply ext_getD
  · simp only [List.length_cons, ring_buffer_contents_length, hsz]
    omega
  · intro j hj
    rw [ring_buffer_contents_length] at hj
    rw [ring_buffer_contents_getD _ _ hj]
    cases j with
    | zero => simp [Nat.mod_eq_of_lt h5]
    | succ k =>
      simp only [List.getD_cons_succ]
      rw [ring_buffer_contents_getD _ _ (by rw [hsz]; omega)]
      simp only []
      congr 1
      rw [Nat.mod_add_mod]
      congr 1
      omega

theorem drop_last_append (n : Nat) (l m : List Nat) :
    ((l.drop (l.length - n)) ++ m).drop ((l.drop (l.length - n) ++ m).length - n) =
      (l ++ m).drop ((l ++ m).length - n) := by
  rw [← List.drop_append_of_le_length (Nat.sub_le _ _), List.drop_drop]
  congr 1
  simp only [List.length_drop, List.length_append]
  omega

theorem ring_buffer_full_iff (rb : ring_buffer_t) (h : ring_buffer_wf rb) :
    rb.is_full ≠ 0 ↔ ring_buffer_size rb = rb.capacity := by
  rw [ring_buffer_size_of_wf rb h]
  obtain ⟨h1, h2, h3, h4, h5, h6⟩ := h
  by_cases hf : rb.is_full ≠ 0
  · simp [hf]
  · simp only [hf, if_false, false_iff]
    split_ifs <;> omega

theorem ring_buffer_write_contents_drop (rb : ring_buffer_t) (b : Nat)
    (h : ring_buffer_wf rb) :
    ring_buffer_contents (ring_buffer_write rb b) =
      (ring_buffer_contents rb ++ [b]).drop
        ((ring_buffer_contents rb ++ [b]).length - rb.capacity) := by
  rw [ring_buffer_write_contents rb b h]
  have hle := ring_buffer_size_le rb h
  have hlen := ring_buffer_contents_length rb
  by_cases hf : rb.is_full ≠ 0
  · have hsz := (ring_buffer_full_iff rb h).mp hf
    rw [if_pos hf]
    have h1 := h.1
    have : (ring_buffer_contents rb ++ [b]).length - rb.capacity = 1 := by
      simp only [List.length_append, List.length_singleton]; omega
    rw [this]
    cases hc : ring_buffer_contents rb with
    | nil => rw [hc] at hlen; simp at hlen; omega
    | cons x t => simp
  · have hsz : ring_buffer_size rb ≠ rb.capacity := fun e => hf ((ring_buffer_full_iff rb h).mpr e)
    rw [if_neg hf]
    have : (ring_buffer_contents rb ++ [b]).length - rb.capacity = 0 := by
      simp only [List.length_append, List.length_singleton]; omega
    rw [this, List.drop_zero]

theorem ring_buffer_write_capacity (rb : ring_buffer_t) (b : Nat) :
    (ring_buffer_write rb b).capacity = rb.capacity := rfl

theorem ring_buffer_write_all_spec (ws : List Nat) :
    ∀ rb : ring_buffer_t, ring_buffer_wf rb →
      ring_buffer_wf (ring_buffer_write_all rb ws) ∧
      (ring_buffer_write_all rb ws).capacity = rb.capacity ∧
      ring_buffer_contents (ring_buffer_write_all rb ws) =
        (ring_buffer_contents rb ++ ws).drop
          ((ring_buffer_contents rb ++ ws).length - rb.capacity) := by
  induction ws with
  | nil =>
    intro rb h
    refine ⟨h, rfl, ?_⟩
    have hle := ring_buffer_size_le rb h
    have hlen := ring_buffer_contents_length rb
    have : (ring_buffer_contents rb ++ []).length - rb.capacity = 0 := by
      simp only [List.append_nil]; omega
    rw [this]; simp [ring_buffer_write_all]
  | cons w ws ih =>
    intro rb h
    obtain ⟨i1, i2, i3⟩ := ih (ring_buffer_write rb w) (ring_buffer_write_wf rb w h)
    have e : ring_buffer_write_all rb (w :: ws) =
        ring_buffer_write_all (ring_buffer_write rb w) ws := rfl
    rw [e]
    refine ⟨i1, by rw [i2, ring_buffer_write_capacity], ?_⟩
    rw [i3, ring_buffer_write_contents_drop rb w h, ring_buffer_write_capacity,
      drop_last_append]
    simp

theorem ring_buffer_init_wf (mem : List Nat) (N : Nat) (h1 : 1 ≤ N) (h2 : N ≤ 255)
    (h3 : N ≤ mem.length) : ring_buffer_wf (ring_buffer_init mem N) :=
  ⟨h1, h2, h3, by simpa [ring_buffer_init] using h1, by simpa [ring_buffer_init] using h1,
    fun hf => absurd rfl hf⟩

theorem ring_buffer_init_contents (mem : List Nat) (N : Nat) :
    ring_buffer_contents (ring_buffer_init mem N) = [] := by
  simp [ring_buffer_contents, ring_buffer_size, ring_buffer_init]

theorem ring_buffer_read_all_spec (fuel : Nat) :
    ∀ rb : ring_buffer_t, ring_buffer_wf rb → ring_buffer_size rb ≤ fuel →
      (ring_buffer_read_all fuel rb).1 = ring_buffer_contents rb ∧
      ring_buffer_wf (ring_buffer_read_all fuel rb).2 ∧
      ring_buffer_size (ring_buffer_read_all fuel rb).2 = 0 := by
  induction fuel with
  | zero =>
    intro rb h hs
    have h0 : ring_buffer_size rb = 0 := by omega
    refine ⟨?_, h, h0⟩
    simp [ring_buffer_read_all, ring_buffer_contents, h0]
  | succ n ih =>
    intro rb h hs
    by_cases h0 : ring_buffer_size rb = 0
    · simp only [ring_buffer_read_all, ring_buffer_read_of_zero rb 0 h h0, if_true]
      exact ⟨by simp [ring_buffer_contents, h0], h, h0⟩
    · have hp : 0 < ring_buffer_size rb := by omega
      have hsz := ring_buffer_read_size rb h hp
      obtain ⟨j1, j2, j3⟩ := ih _ (ring_buffer_read_wf rb h) (by rw [hsz]; omega)
      simp only [ring_buffer_read_all, ring_buffer_read_of_pos rb 0 hp, one_ne_zero, if_false]
      refine ⟨?_, j2, j3⟩
      rw [ring_buffer_read_contents rb h hp, j1]

theorem ring_buffer_is_empty_of_size_zero (rb : ring_buffer_t) (h : ring_buffer_wf rb)
    (h0 : ring_buffer_size rb = 0) : ring_buffer_is_empty rb = 1 := by
  have hne := (ring_buffer_is_empty_iff rb h).mpr h0
  unfold ring_buffer_is_empty at hne ⊢
  split_ifs at hne ⊢
  · rfl
  · exact absurd rfl hne

/-! ## C strings -/

theorem strcmp_eq_zero_iff (a : List Nat) :
    ∀ b : List Nat, strcmp a b = 0 ↔ c_string a = c_string b := by
  induction a with
  | nil =>
    intro b
    cases b with
    | nil => simp [strcmp, c_string]
    | cons y ys =>
      by_cases hy : y = 0
      · simp [strcmp, c_string, hy]
      · simp [strcmp, c_string, hy, List.takeWhile_cons]
  | cons x xs ih =>
    intro b
    cases b with
    | nil =>
      by_cases hx : x = 0
      · simp [strcmp, c_string, hx]
      · simp [strcmp, c_string, hx, List.takeWhile_cons]
    | cons y ys =>
      by_cases hxy : x = y
      · subst hxy
        by_cases hx : x = 0
        · simp [strcmp, c_string, hx]
        · have := ih ys
          simp only [c_string] at this
          simp [strcmp, c_string, hx, List.takeWhile_cons, this]
      · have hne : (x : Int) - (y : Int) ≠ 0 := by omega
        by_cases hx : x = 0
        · have hy : y ≠ 0 := fun e => hxy (by rw [hx, e])
          simp [strcmp, c_string, hx, hy, hxy, List.takeWhile_cons]
          omega
        · by_cases hy : y = 0
          · simp [strcmp, c_string, hx, hy, hxy, List.takeWhile_cons]
          · simp [strcmp, c_string, hx, hy, hxy, List.takeWhile_cons, hne]

theorem c_string_idem (a : List Nat) : c_string (c_string a) = c_string a := by
  induction a with
  | nil => rfl
  | cons x xs ih =>
    simp only [c_string] at ih ⊢
    by_cases hx : x = 0
    · simp [List.takeWhile_cons, hx]
    · simpa [List.takeWhile_cons, hx] using ih

theorem c_string_of_no_nul (a : List Nat) (h : ∀ b ∈ a, b ≠ 0) : c_string a = a := by
  unfold c_string
  rw [List.takeWhile_eq_self_iff]
  intro b hb
  simpa using h b hb

theorem c_string_append_nul (a rest : List Nat) : c_string (a ++ 0 :: rest) = c_string a := by
  induction a with
  | nil => simp [c_string, List.takeWhile_cons]
  | cons x xs ih =>
    simp only [c_string] at ih ⊢
    by_cases hx : x = 0
    · simp [List.takeWhile_cons, hx]
    · simpa [List.takeWhile_cons, hx] using ih

/-- The command handler reads its argument only up to the first NUL. -/
theorem system_events_handler_cmd_c_string (PASSWORD : List Nat) (now : Nat) (s : system_t)
    (cmd : List Nat) :
    system_events_handler_cmd PASSWORD now s cmd =
      system_events_handler_cmd PASSWORD now s (c_string cmd) := by
  simp only [system_events_handler_cmd, strcmp_eq_zero_iff, c_string_idem]

/-! ## The UART drain loop -/

theorem set_append_drop (L cmd0 : List Nat) (x : Nat) (h : L.length < cmd0.length) :
    (L ++ cmd0.drop L.length).set L.length x = L ++ x :: cmd0.drop (L.length + 1) := by
  rw [List.set_append, if_neg (Nat.lt_irrefl _), Nat.sub_self, List.drop_eq_getElem_cons h]
  rfl

/-- The loop of `process_uart_commands` on a well-formed buffer ends once
every unread byte has been read, having applied the loop body to the unread
bytes in order. -/
theorem process_uart_loop_spec (PASSWORD : List Nat) (now ch0 : Nat) (fuel : Nat) :
    ∀ (rb : ring_buffer_t) (l : uart_line_t), ring_buffer_wf rb → ring_buffer_size rb < fuel →
      process_uart_loop PASSWORD now ch0 fuel rb l =
        some ((ring_buffer_read_all fuel rb).2,
          (ring_buffer_contents rb).foldl (process_uart_byte PASSWORD now) l) := by
  induction fuel with
  | zero => intro rb l _ hs; omega
  | succ n ih =>
    intro rb l h hs
    by_cases h0 : ring_buffer_size rb = 0
    · have hc : ring_buffer_contents rb = [] := by simp [ring_buffer_contents, h0]
      simp [process_uart_loop, ring_buffer_read_all, ring_buffer_read_of_zero rb 0 h h0, h0, hc]
    · have hp : 0 < ring_buffer_size rb := by omega
      have hsz := ring_buffer_read_size rb h hp
      have hrec := ih _ (process_uart_byte PASSWORD now l (rb.buffer.getD rb.tail 0))
        (ring_buffer_read_wf rb h) (by rw [hsz]; omega)
      simp only [process_uart_loop, if_pos hp, ring_buffer_read_of_pos rb ch0 hp,
        ring_buffer_read_all, ring_buffer_read_of_pos rb 0 hp, one_ne_zero, if_false]
      rw [hrec, ring_buffer_read_contents rb h hp, List.foldl_cons]

/-- Bytes other than the two terminators are stored one after the other while
there is room for them. -/
theorem process_uart_bytes_of_line (PASSWORD : List Nat) (now : Nat) (cmd0 : List Nat)
    (s : system_t) (e : List (List Nat)) (L : List Nat) :
    L.length ≤ 31 → cmd0.length = 32 → (∀ b ∈ L, b ≠ 13 ∧ b ≠ 10) →
      L.foldl (process_uart_byte PASSWORD now) { cmd := cmd0, i := 0, sys := s, emitted := e } =
        { cmd := L ++ cmd0.drop L.length, i := L.length, sys := s, emitted := e } := by
  induction L using List.reverseRecOn with
  | nil => intro _ _ _; simp
  | append_singleton L b ih =>
    intro hlen hc hnt
    rw [List.length_append, List.length_singleton] at hlen
    have hb := hnt b (by simp)
    rw [List.foldl_append, ih (by omega) hc (fun x hx => hnt x (by simp [hx]))]
    simp only [List.foldl_cons, List.foldl_nil, process_uart_byte]
    rw [if_neg (by rintro (h | h); exact hb.1 h; exact hb.2 h), if_pos (by omega),
      set_append_drop L cmd0 b (by omega)]
    simp

/-- A terminator after a stored line of `1..31` bytes hands the line to the
command handler and clears the index. -/
theorem process_uart_byte_of_terminator (PASSWORD : List Nat) (now : Nat) (cmd0 : List Nat)
    (s : system_t) (e : List (List Nat)) (L : List Nat) (t : Nat)
    (h1 : 1 ≤ L.length) (hlen : L.length ≤ 31) (hc : cmd0.length = 32)
    (ht : t = 13 ∨ t = 10) :
    process_uart_byte PASSWORD now
        { cmd := L ++ cmd0.drop L.length, i := L.length, sys := s, emitted := e } t =
      { cmd := L ++ 0 :: cmd0.drop (L.length + 1), i := 0,
        sys := system_events_handler_cmd PASSWORD now s L,
        emitted := e ++ [c_string L] } := by
  simp only [process_uart_byte]
  rw [if_pos ht, if_pos (by omega), set_append_drop L cmd0 0 (by omega), c_string_append_nul,
    system_events_handler_cmd_c_string PASSWORD now s (L ++ 0 :: cmd0.drop (L.length + 1)),
    c_string_append_nul, ← system_events_handler_cmd_c_string]

/-- One line and its terminator, written to an empty well-formed ring buffer
that can hold them, drained by `process_uart_commands`. -/
theorem process_uart_commands_of_line (PASSWORD : List Nat) (now ch0 : Nat)
    (cmd0 : List Nat) (fuel : Nat) (rb : ring_buffer_t) (s : system_t) (L : List Nat) (t : Nat)
    (hwf : ring_buffer_wf rb) (hempty : ring_buffer_size rb = 0)
    (h1 : 1 ≤ L.length) (hlen : L.length ≤ 31) (hcap : L.length < rb.capacity)
    (hnt : ∀ b ∈ L, b ≠ 13 ∧ b ≠ 10) (ht : t = 13 ∨ t = 10) (hc : cmd0.length = 32)
    (hfuel : L.length + 1 < fuel) :
    process_uart_commands PASSWORD now ch0 cmd0 fuel (ring_buffer_write_all rb (L ++ [t])) s =
      some ((ring_buffer_read_all fuel (ring_buffer_write_all rb (L ++ [t]))).2,
        system_events_handler_cmd PASSWORD now s L, [c_string L]) := by
  obtain ⟨w1, w2, w3⟩ := ring_buffer_write_all_spec (L ++ [t]) rb hwf
  have hnil : ring_buffer_contents rb = [] := by simp [ring_buffer_contents, hempty]
  rw [hnil, List.nil_append] at w3
  have hz : (L ++ [t]).length - rb.capacity = 0 := by
    rw [List.length_append, List.length_singleton]; omega
  rw [hz, List.drop_zero] at w3
  have hsize : ring_buffer_size (ring_buffer_write_all rb (L ++ [t])) = L.length + 1 := by
    rw [← ring_buffer_contents_length, w3, List.length_append, List.length_singleton]
  unfold process_uart_commands
  rw [process_uart_loop_spec PASSWORD now ch0 fuel _ _ w1 (by rw [hsize]; exact hfuel), w3,
    List.foldl_append, process_uart_bytes_of_line PASSWORD now cmd0 s [] L hlen hc hnt]
  simp only [List.foldl_cons, List.foldl_nil]
  rw [process_uart_byte_of_terminator PASSWORD now cmd0 s [] L t h1 hlen hc ht]
  simp

/-! ## The UART drain loop: termination and line rules -/

theorem process_uart_loop_none (PASSWORD : List Nat) (now ch0 : Nat) (fuel : Nat) :
    ∀ (rb : ring_buffer_t) (l : uart_line_t), ring_buffer_wf rb → fuel ≤ ring_buffer_size rb →
      process_uart_loop PASSWORD now ch0 fuel rb l = none := by
  induction fuel with
  | zero => intro rb l _ _; rfl
  | succ n ih =>
    intro rb l h hs
    have hp : 0 < ring_buffer_size rb := by omega
    have hsz := ring_buffer_read_size rb h hp
    simp only [process_uart_loop, if_pos hp, ring_buffer_read_of_pos rb ch0 hp]
    exact ih _ _ (ring_buffer_read_wf rb h) (by rw [hsz]; omega)

theorem ring_buffer_read_all_capacity (fuel : Nat) :
    ∀ rb : ring_buffer_t, (ring_buffer_read_all fuel rb).2.capacity = rb.capacity := by
  induction fuel with
  | zero => intro rb; rfl
  | succ n ih =>
    intro rb
    by_cases he : ring_buffer_is_empty rb ≠ 0
    · simp [ring_buffer_read_all, ring_buffer_read, he]
    · simp only [ring_buffer_read_all, ring_buffer_read, if_neg he, one_ne_zero, if_false]
      exact ih _

/-- The result of `process_uart_commands` on a well-formed buffer, as a fold of
the loop body over the unread bytes. -/
theorem process_uart_commands_of_contents (PASSWORD : List Nat) (now ch0 : Nat)
    (cmd0 : List Nat) (fuel : Nat) (rb : ring_buffer_t) (s : system_t)
    (hwf : ring_buffer_wf rb) (hfuel : ring_buffer_size rb < fuel) :
    process_uart_commands PASSWORD now ch0 cmd0 fuel rb s =
      some ((ring_buffer_read_all fuel rb).2,
        ((ring_buffer_contents rb).foldl (process_uart_byte PASSWORD now)
          { cmd := cmd0, i := 0, sys := s, emitted := [] }).sys,
        ((ring_buffer_contents rb).foldl (process_uart_byte PASSWORD now)
          { cmd := cmd0, i := 0, sys := s, emitted := [] }).emitted) := by
  unfold process_uart_commands
  rw [process_uart_loop_spec PASSWORD now ch0 fuel rb _ hwf hfuel]

/-- The locals of the drain loop after one line and its terminator, read from
an empty well-formed ring buffer that can hold them. -/
theorem process_uart_loop_of_line (PASSWORD : List Nat) (now ch0 : Nat)
    (cmd0 : List Nat) (fuel : Nat) (rb : ring_buffer_t) (s : system_t) (L : List Nat) (t : Nat)
    (hwf : ring_buffer_wf rb) (hempty : ring_buffer_size rb = 0)
    (h1 : 1 ≤ L.length) (hlen : L.length ≤ 31) (hcap : L.length < rb.capacity)
    (hnt : ∀ b ∈ L, b ≠ 13 ∧ b ≠ 10) (ht : t = 13 ∨ t = 10) (hc : cmd0.length = 32)
    (hfuel : L.length + 1 < fuel) :
    process_uart_loop PASSWORD now ch0 fuel (ring_buffer_write_all rb (L ++ [t]))
        { cmd := cmd0, i := 0, sys := s, emitted := [] } =
      some ((ring_buffer_read_all fuel (ring_buffer_write_all rb (L ++ [t]))).2,
        { cmd := L ++ 0 :: cmd0.drop (L.length + 1), i := 0,
          sys := system_events_handler_cmd PASSWORD now s L, emitted := [c_string L] }) := by
  obtain ⟨w1, w2, w3⟩ := ring_buffer_write_all_spec (L ++ [t]) rb hwf
  have hnil : ring_buffer_contents rb = [] := by simp [ring_buffer_contents, hempty]
  rw [hnil, List.nil_append] at w3
  have hz : (L ++ [t]).length - rb.capacity = 0 := by
    rw [List.length_append, List.length_singleton]; omega
  rw [hz, List.drop_zero] at w3
  have hsize : ring_buffer_size (ring_buffer_write_all rb (L ++ [t])) = L.length + 1 := by
    rw [← ring_buffer_contents_length, w3, List.length_append, List.length_singleton]
  rw [process_uart_loop_spec PASSWORD now ch0 fuel _ _ w1 (by rw [hsize]; exact hfuel), w3,
    List.foldl_append, process_uart_bytes_of_line PASSWORD now cmd0 s [] L hlen hc hnt]
  simp only [List.foldl_cons, List.foldl_nil]
  rw [process_uart_byte_of_terminator PASSWORD now cmd0 s [] L t h1 hlen hc ht]
  simp

theorem process_uart_byte_index_le (PASSWORD : List Nat) (now : Nat) (l : uart_line_t)
    (ch : Nat) (h : l.i ≤ 31) : (process_uart_byte PASSWORD now l ch).i ≤ 31 := by
  unfold process_uart_byte
  split_ifs <;> (try dsimp only) <;> omega

theorem process_uart_byte_cmd_getD (PASSWORD : List Nat) (now : Nat) (l : uart_line_t)
    (ch k : Nat) (hk : k ≠ l.i) :
    (process_uart_byte PASSWORD now l ch).cmd.getD k 0 = l.cmd.getD k 0 := by
  have hne : ¬ (l.i = k ∧ l.i < l.cmd.length) := fun hh => hk hh.1.symm
  unfold process_uart_byte
  split_ifs <;> simp only [getD_set, if_neg hne]

theorem process_uart_bytes_index_le (PASSWORD : List Nat) (now : Nat) (bs : List Nat) :
    ∀ l : uart_line_t, l.i ≤ 31 → (bs.foldl (process_uart_byte PASSWORD now) l).i ≤ 31 := by
  induction bs with
  | nil => intro l h; exact h
  | cons b bs ih =>
    intro l h
    exact ih _ (process_uart_byte_index_le PASSWORD now l b h)

/-- Bytes other than the terminators never reach the command handler. -/
theorem process_uart_bytes_no_terminator (PASSWORD : List Nat) (now : Nat) (bs : List Nat) :
    ∀ l : uart_line_t, (∀ b ∈ bs, b ≠ 13 ∧ b ≠ 10) →
      (bs.foldl (process_uart_byte PASSWORD now) l).sys = l.sys ∧
      (bs.foldl (process_uart_byte PASSWORD now) l).emitted = l.emitted := by
  induction bs with
  | nil => intro l _; exact ⟨rfl, rfl⟩
  | cons b bs ih =>
    intro l h
    have hb := h b (by simp)
    have hstep : (process_uart_byte PASSWORD now l b).sys = l.sys ∧
        (process_uart_byte PASSWORD now l b).emitted = l.emitted := by
      unfold process_uart_byte
      rw [if_neg (by rintro (e | e); exact hb.1 e; exact hb.2 e)]
      split_ifs <;> exact ⟨rfl, rfl⟩
    obtain ⟨i1, i2⟩ := ih (process_uart_byte PASSWORD now l b) (fun x hx => h x (by simp [hx]))
    rw [List.foldl_cons, i1, i2]
    exact hstep

/-- Bytes other than the terminators are dropped once 31 bytes are stored. -/
theorem process_uart_bytes_of_full_line (PASSWORD : List Nat) (now : Nat) (bs : List Nat) :
    ∀ l : uart_line_t, l.i = 31 → (∀ b ∈ bs, b ≠ 13 ∧ b ≠ 10) →
      bs.foldl (process_uart_byte PASSWORD now) l = l := by
  induction bs with
  | nil => intro l _ _; rfl
  | cons b bs ih =>
    intro l hi h
    have hb := h b (by simp)
    have hstep : process_uart_byte PASSWORD now l b = l := by
      unfold process_uart_byte
      rw [if_neg (by rintro (e | e); exact hb.1 e; exact hb.2 e), if_neg (by omega)]
    rw [List.foldl_cons, hstep]
    exact ih l hi (fun x hx => h x (by simp [hx]))

/-- Terminators met while no byte is pending do nothing. -/
theorem process_uart_bytes_of_terminators (PASSWORD : List Nat) (now : Nat) (bs : List Nat) :
    ∀ l : uart_line_t, l.i = 0 → (∀ b ∈ bs, b = 13 ∨ b = 10) →
      bs.foldl (process_uart_byte PASSWORD now) l = l := by
  induction bs with
  | nil => intro l _ _; rfl
  | cons b bs ih =>
    intro l hi h
    have hb := h b (by simp)
    have hstep : process_uart_byte PASSWORD now l b = l := by
      unfold process_uart_byte
      rw [if_pos hb, if_neg (by omega)]
    rw [List.foldl_cons, hstep]
    exact ih l hi (fun x hx => h x (by simp [hx]))

/-! ## The keypad accumulator -/

/-- The door state and timer a completing call of the keypad handler leaves
are those the command handler computes from the completed command. -/
theorem system_events_handler_key_door (PASSWORD : List Nat) (KEYPAD_BUFFER_SIZE now : Nat)
    (s : system_t) (key : Nat) (c : List Nat)
    (h : (system_events_handler_key PASSWORD KEYPAD_BUFFER_SIZE now s key).2 = some c) :
    (system_events_handler_key PASSWORD KEYPAD_BUFFER_SIZE now s key).1.door_state =
      (system_events_handler_cmd PASSWORD now s c).door_state ∧
    (system_events_handler_key PASSWORD KEYPAD_BUFFER_SIZE now s key).1.door_timer =
      (system_events_handler_cmd PASSWORD now s c).door_timer := by
  unfold system_events_handler_key at h ⊢
  by_cases hst : s.key_index < KEYPAD_BUFFER_SIZE - 1
  · simp only [if_pos hst] at h ⊢
    by_cases hc : key = 35 ∨ (s.key_index + 1) % 256 ≥ KEYPAD_BUFFER_SIZE - 1
    · rw [if_pos hc] at h ⊢
      have hce : c = c_string ((s.key_buffer.set s.key_index key).set
          ((s.key_index + 1) % 256) 0) := (Option.some.inj h).symm
      subst hce
      rw [← system_events_handler_cmd_c_string]
      unfold system_events_handler_cmd
      split_ifs <;> exact ⟨rfl, rfl⟩
    · rw [if_neg hc] at h
      exact absurd h (by simp)
  · simp only [if_neg hst] at h ⊢
    by_cases hc : key = 35 ∨ s.key_index ≥ KEYPAD_BUFFER_SIZE - 1
    · rw [if_pos hc] at h ⊢
      have hce : c = c_string (s.key_buffer.set s.key_index 0) := (Option.some.inj h).symm
      subst hce
      rw [← system_events_handler_cmd_c_string]
      unfold system_events_handler_cmd
      split_ifs <;> exact ⟨rfl, rfl⟩
    · rw [if_neg hc] at h
      exact absurd h (by simp)

theorem system_feed_keys_append (PASSWORD : List Nat) (KEYPAD_BUFFER_SIZE now : Nat)
    (k1 k2 : List Nat) :
    ∀ s : system_t,
      system_feed_keys PASSWORD KEYPAD_BUFFER_SIZE now s (k1 ++ k2) =
        ((system_feed_keys PASSWORD KEYPAD_BUFFER_SIZE now
            (system_feed_keys PASSWORD KEYPAD_BUFFER_SIZE now s k1).1 k2).1,
          (system_feed_keys PASSWORD KEYPAD_BUFFER_SIZE now s k1).2 ++
            (system_feed_keys PASSWORD KEYPAD_BUFFER_SIZE now
              (system_feed_keys PASSWORD KEYPAD_BUFFER_SIZE now s k1).1 k2).2) := by
  induction k1 with
  | nil => intro s; simp [system_feed_keys]
  | cons k ks ih =>
    intro s
    rw [List.cons_append]
    simp only [system_feed_keys]
    rw [ih]
    simp

/-- A key stored below the last free cell, other than `'#'`, completes nothing. -/
theorem system_events_handler_key_store (PASSWORD : List Nat) (KEYPAD_BUFFER_SIZE now : Nat)
    (s : system_t) (key : Nat) (hst : s.key_index + 1 < KEYPAD_BUFFER_SIZE - 1)
    (hk : key ≠ 35) (hlt : s.key_index + 1 < 256) :
    system_events_handler_key PASSWORD KEYPAD_BUFFER_SIZE now s key =
      ({ s with key_buffer := s.key_buffer.set s.key_index key, key_index := s.key_index + 1 },
        none) := by
  have h1 : s.key_index < KEYPAD_BUFFER_SIZE - 1 := by omega
  have hm : (s.key_index + 1) % 256 = s.key_index + 1 := Nat.mod_eq_of_lt hlt
  unfold system_events_handler_key
  simp only [if_pos h1, hm]
  rw [if_neg (by rintro (e | e); exact hk e; omega)]

/-- What a completing call leaves besides the door state and the timer. -/
theorem system_events_handler_key_complete (PASSWORD : List Nat)
    (KEYPAD_BUFFER_SIZE now : Nat) (s : system_t) (key : Nat)
    (hst : s.key_index < KEYPAD_BUFFER_SIZE - 1)
    (hc : key = 35 ∨ (s.key_index + 1) % 256 ≥ KEYPAD_BUFFER_SIZE - 1) :
    (system_events_handler_key PASSWORD KEYPAD_BUFFER_SIZE now s key).2 =
      some (c_string ((s.key_buffer.set s.key_index key).set ((s.key_index + 1) % 256) 0)) ∧
    (system_events_handler_key PASSWORD KEYPAD_BUFFER_SIZE now s key).1.key_index = 0 ∧
    (system_events_handler_key PASSWORD KEYPAD_BUFFER_SIZE now s key).1.key_buffer =
      List.replicate KEYPAD_BUFFER_SIZE 0 := by
  unfold system_events_handler_key
  simp only [if_pos hst]
  rw [if_pos hc]
  exact ⟨rfl, rfl, rfl⟩

/-- Keys other than `'#'` fed to an empty keypad buffer are stored in order and
complete nothing while at most `KEYPAD_BUFFER_SIZE - 2` of them have come. -/
theorem system_feed_keys_stored (PASSWORD : List Nat) (KEYPAD_BUFFER_SIZE now : Nat)
    (d : door_state_t) (t : Nat) (kb : List Nat) (K : List Nat) :
    KEYPAD_BUFFER_SIZE ≤ 256 → kb.length = KEYPAD_BUFFER_SIZE →
    K.length + 2 ≤ KEYPAD_BUFFER_SIZE → (∀ k ∈ K, k ≠ 35) →
      system_feed_keys PASSWORD KEYPAD_BUFFER_SIZE now
          { door_state := d, door_timer := t, key_buffer := kb, key_index := 0 } K =
        ({ door_state := d, door_timer := t, key_buffer := K ++ kb.drop K.length,
           key_index := K.length }, []) := by
  induction K using List.reverseRecOn with
  | nil => intro _ _ _ _; simp [system_feed_keys]
  | append_singleton K k ih =>
    intro hC hkb hlen hk
    rw [List.length_append, List.length_singleton] at hlen
    rw [system_feed_keys_append, ih hC hkb (by omega) (fun x hx => hk x (by simp [hx]))]
    simp only [system_feed_keys]
    rw [system_events_handler_key_store PASSWORD KEYPAD_BUFFER_SIZE now _ k
      (by simp only []; omega) (hk k (by simp)) (by simp only []; omega)]
    simp only [set_append_drop K kb k (by omega)]
    simp

/-- With `KEYPAD_BUFFER_SIZE` above 256 the 8-bit index never reaches
`KEYPAD_BUFFER_SIZE - 1`, so keys other than `'#'` never complete a command. -/
theorem system_feed_keys_large (PASSWORD : List Nat) (KEYPAD_BUFFER_SIZE now : Nat)
    (hC : 257 ≤ KEYPAD_BUFFER_SIZE) (keys : List Nat) :
    ∀ s : system_t, s.key_index < 256 → (∀ k ∈ keys, k ≠ 35) →
      (system_feed_keys PASSWORD KEYPAD_BUFFER_SIZE now s keys).2 = [] := by
  induction keys with
  | nil => intro s _ _; rfl
  | cons k ks ih =>
    intro s hs hk
    have hst : s.key_index < KEYPAD_BUFFER_SIZE - 1 := by omega
    have hm : (s.key_index + 1) % 256 < 256 := Nat.mod_lt _ (by omega)
    have hstep : system_events_handler_key PASSWORD KEYPAD_BUFFER_SIZE now s k =
        ({ s with key_buffer := s.key_buffer.set s.key_index k,
                  key_index := (s.key_index + 1) % 256 }, none) := by
      unfold system_events_handler_key
      simp only [if_pos hst]
      rw [if_neg (by rintro (e | e); exact hk k (by simp) e; omega)]
    simp only [system_feed_keys, hstep]
    rw [ih _ hm (fun x hx => hk x (by simp [hx]))]
    rfl

/-! ## The keypad accumulator and the terminator `'#'` -/

theorem c_string_nil_of_head (buf : List Nat) (h : buf.getD 0 0 = 0) : c_string buf = [] := by
  cases buf with
  | nil => rfl
  | cons x xs =>
    have hx : x = 0 := by simpa using h
    simp [c_string, List.takeWhile_cons, hx]

/-- A region whose cells below `n` hold no `'#'` and whose cell `n + 1` is NUL
holds a C string with no `'#'` before its last character. -/
theorem c_string_no_hash (buf : List Nat) :
    ∀ n : Nat, (∀ k, k < n → buf.getD k 0 ≠ 35) → buf.getD (n + 1) 0 = 0 →
      35 ∉ (c_string buf).dropLast := by
  induction buf with
  | nil => intro n _ _; simp [c_string]
  | cons x xs ih =>
    intro n h hz
    by_cases hx : x = 0
    · simp [c_string, List.takeWhile_cons, hx]
    · have hcs : c_string (x :: xs) = x :: c_string xs := by
        simp [c_string, List.takeWhile_cons, hx]
      rw [hcs]
      cases n with
      | zero =>
        have h0 : xs.getD 0 0 = 0 := by simpa using hz
        rw [c_string_nil_of_head xs h0]
        simp
      | succ m =>
        have hx35 : x ≠ 35 := by simpa using h 0 (by omega)
        have hrec := ih m (fun k hk => by simpa using h (k + 1) (by omega)) (by simpa using hz)
        cases hys : c_string xs with
        | nil => simp
        | cons y ys =>
          rw [hys] at hrec
          rw [List.dropLast_cons₂]
          intro hmem
          rcases List.mem_cons.mp hmem with e | e
          · exact hx35 e.symm
          · exact hrec e

theorem count_le_one_of_not_mem_dropLast (c : List Nat) (h : 35 ∉ c.dropLast) :
    c.count 35 ≤ 1 := by
  rcases List.eq_nil_or_concat c with e | ⟨K, k, e⟩
  · rw [e]; simp
  · rw [List.concat_eq_append] at e
    subst e
    rw [List.dropLast_concat] at h
    rw [List.count_append, List.count_eq_zero_of_not_mem h]
    have : List.count 35 [k] ≤ [k].length := List.count_le_length _ _
    simpa using this

/-- One call of the keypad handler keeps `keypad_inv`, completes only commands
with no `'#'` before their last character, and does not move the door to
`STATE_ABIERTO_PERMANENTE`. -/
theorem system_events_handler_key_inv (PASSWORD : List Nat) (C now : Nat) (s : system_t)
    (key : Nat) (hC : 2 ≤ C) (hinv : keypad_inv C s) :
    keypad_inv C (system_events_handler_key PASSWORD C now s key).1 ∧
    (∀ c, (system_events_handler_key PASSWORD C now s key).2 = some c → 35 ∉ c.dropLast) ∧
    ((system_events_handler_key PASSWORD C now s key).1.door_state = STATE_ABIERTO_PERMANENTE →
      s.door_state = STATE_ABIERTO_PERMANENTE) := by
  obtain ⟨hl, hst, h256, hcell⟩ := hinv
  by_cases hc : key = 35 ∨ (s.key_index + 1) % 256 ≥ C - 1
  · obtain ⟨c1, c2, c3⟩ := system_events_handler_key_complete PASSWORD C now s key hst hc
    have hno : 35 ∉ (c_string ((s.key_buffer.set s.key_index key).set
        ((s.key_index + 1) % 256) 0)).dropLast := by
      by_cases hj : s.key_index + 1 < 256
      · rw [Nat.mod_eq_of_lt hj]
        apply c_string_no_hash _ s.key_index
        · intro k hk
          rw [getD_set, if_neg (by omega), getD_set, if_neg (by omega)]
          exact hcell k hk
        · rw [getD_set, if_pos ⟨rfl, by rw [List.length_set]; omega⟩]
      · have e : (s.key_index + 1) % 256 = 0 := by omega
        rw [e, c_string_nil_of_head]
        · simp
        · rw [getD_set, if_pos ⟨rfl, by rw [List.length_set]; omega⟩]
    refine ⟨⟨?_, ?_, ?_, ?_⟩, ?_, ?_⟩
    · rw [c3, List.length_replicate]
    · rw [c2]; omega
    · rw [c2]; omega
    · intro k hk; rw [c2] at hk; omega
    · intro c hcmd
      rw [c1] at hcmd
      rw [← Option.some.inj hcmd]
      exact hno
    · intro hperm
      rw [(system_events_handler_key_door PASSWORD C now s key _ c1).1] at hperm
      unfold system_events_handler_cmd at hperm
      by_cases h1 : strcmp (c_string ((s.key_buffer.set s.key_index key).set
          ((s.key_index + 1) % 256) 0)) DEBUG_OPEN = 0
      · exfalso
        rw [strcmp_eq_zero_iff, c_string_idem] at h1
        rw [h1] at hno
        exact hno (by decide)
      · rw [if_neg h1] at hperm
        split_ifs at hperm
        exact hperm
  · have hstep : system_events_handler_key PASSWORD C now s key =
        ({ s with key_buffer := s.key_buffer.set s.key_index key,
                  key_index := (s.key_index + 1) % 256 }, none) := by
      unfold system_events_handler_key
      simp only [if_pos hst]
      rw [if_neg hc]
    rw [hstep]
    refine ⟨⟨?_, ?_, ?_, ?_⟩, ?_, fun h => h⟩
    · simp only [List.length_set]; exact hl
    · simp only []; omega
    · simp only []; omega
    · intro k hk
      simp only [] at hk ⊢
      by_cases hj : s.key_index + 1 < 256
      · rw [Nat.mod_eq_of_lt hj] at hk
        rw [getD_set]
        by_cases hkj : s.key_index = k
        · rw [if_pos ⟨hkj, by omega⟩]
          exact fun e => hc (Or.inl e)
        · rw [if_neg (fun hh => hkj hh.1)]
          exact hcell k (by omega)
      · omega
    · intro c hcmd
      exact absurd hcmd (by simp)

/-- A sequence of keystrokes fed from a state satisfying `keypad_inv`. -/
theorem system_feed_keys_inv (PASSWORD : List Nat) (C now : Nat) (hC : 2 ≤ C)
    (keys : List Nat) :
    ∀ s : system_t, keypad_inv C s →
      (∀ c ∈ (system_feed_keys PASSWORD C now s keys).2, 35 ∉ c.dropLast) ∧
      ((system_feed_keys PASSWORD C now s keys).1.door_state = STATE_ABIERTO_PERMANENTE →
        s.door_state = STATE_ABIERTO_PERMANENTE) ∧
      keypad_inv C (system_feed_keys PASSWORD C now s keys).1 := by
  induction keys with
  | nil =>
    intro s hinv
    exact ⟨fun c hc => absurd hc (by simp [system_feed_keys]), fun h => h, hinv⟩
  | cons k ks ih =>
    intro s hinv
    obtain ⟨i1, i2, i3⟩ := system_events_handler_key_inv PASSWORD C now s k hC hinv
    obtain ⟨j1, j2, j3⟩ := ih _ i1
    simp only [system_feed_keys]
    refine ⟨?_, fun h => i3 (j2 h), j3⟩
    intro c hc
    rcases List.mem_append.mp hc with h | h
    · cases hr : (system_events_handler_key PASSWORD C now s k).2 with
      | none => rw [hr] at h; simp at h
      | some c0 =>
        rw [hr] at h
        have : c = c0 := by simpa using h
        rw [this]
        exact i2 c0 hr
    · exact j1 c h

/-! ## The index invariant alone -/

theorem ring_buffer_inv_write (rb : ring_buffer_t) (b : Nat) (h1 : 1 ≤ rb.capacity)
    (h : ring_buffer_inv rb) : ring_buffer_inv (ring_buffer_write rb b) := by
  obtain ⟨_, h5, _⟩ := h
  have hm : ∀ x, x % rb.capacity < rb.capacity := fun x => Nat.mod_lt _ (by omega)
  refine ⟨hm _, ?_, ?_⟩
  · simp only [ring_buffer_write]; split_ifs
    · exact hm _
    · exact h5
  · simp only [ring_buffer_write]
    intro hf
    by_contra hne
    exact hf (if_neg hne)

theorem ring_buffer_inv_read (rb : ring_buffer_t) (byte : Nat) (h1 : 1 ≤ rb.capacity)
    (h : ring_buffer_inv rb) : ring_buffer_inv (ring_buffer_read rb byte).1 := by
  unfold ring_buffer_read
  split_ifs
  · exact h
  · exact ⟨h.1, Nat.mod_lt _ (by omega), fun hf => absurd rfl hf⟩

theorem ring_buffer_size_of_inv (rb : ring_buffer_t) (h1 : 1 ≤ rb.capacity)
    (h2 : rb.capacity ≤ 255) (h : ring_buffer_inv rb) :
    ring_buffer_size rb =
      if rb.is_full ≠ 0 then rb.capacity else (rb.head + rb.capacity - rb.tail) % rb.capacity := by
  obtain ⟨h4, h5, _⟩ := h
  unfold ring_buffer_size
  by_cases hf : rb.is_full ≠ 0
  · rw [if_pos hf, if_pos hf]
  · rw [if_neg hf, if_neg hf, mod_wrap rb.capacity (rb.head + rb.capacity - rb.tail) (by omega)]
    split_ifs <;> omega

theorem int_sub_emod (N h t : Nat) (hh : h < N) (ht : t < N) :
    (((h + N - t) % N : Nat) : Int) = ((h : Int) - (t : Int)) % (N : Int) := by
  rw [mod_wrap N (h + N - t) (by omega)]
  by_cases hle : t ≤ h
  · have e : ¬ (h + N - t < N) := by omega
    rw [if_neg e, Int.emod_eq_of_lt (by omega) (by omega)]
    omega
  · have e : h + N - t < N := by omega
    have hs : ((h : Int) - (t : Int)) % (N : Int) = ((h : Int) - (t : Int) + (N : Int)) % (N : Int) :=
      Int.add_emod_self.symm
    rw [if_pos e, hs, Int.emod_eq_of_lt (by omega) (by omega)]
    omega

/-! ## Claims -/

/-- C1: for a capacity `N` in `1..255` and any bytes `ws` written with
`ring_buffer_write` to a freshly initialised buffer, `ring_buffer_size` is
`min j N` (so at most `N`) after the first `j` writes, for every `j`, and
reading with `ring_buffer_read` until it reports an empty buffer (any number
of allowed attempts that is at least `min k N`) returns exactly the last
`min k N` bytes written, in writing order, and leaves the buffer empty. -/
theorem C1_overwrite_keeps_most_recent (N : Nat) (mem ws : List Nat)
    (hN1 : 1 ≤ N) (hN2 : N ≤ 255) (hmem : N ≤ mem.length) :
    (∀ j, j ≤ ws.length →
      ring_buffer_size (ring_buffer_write_all (ring_buffer_init mem N) (ws.take j)) = min j N ∧
      ring_buffer_size (ring_buffer_write_all (ring_buffer_init mem N) (ws.take j)) ≤ N) ∧
    (∀ fuel, min ws.length N ≤ fuel →
      (ring_buffer_read_all fuel (ring_buffer_write_all (ring_buffer_init mem N) ws)).1 =
        ws.drop (ws.length - min ws.length N) ∧
      ring_buffer_is_empty
        (ring_buffer_read_all fuel (ring_buffer_write_all (ring_buffer_init mem N) ws)).2 = 1) := by
  have hwf := ring_buffer_init_wf mem N hN1 hN2 hmem
  have key : ∀ l : List Nat,
      ring_buffer_wf (ring_buffer_write_all (ring_buffer_init mem N) l) ∧
      ring_buffer_contents (ring_buffer_write_all (ring_buffer_init mem N) l) =
        l.drop (l.length - N) ∧
      ring_buffer_size (ring_buffer_write_all (ring_buffer_init mem N) l) = min l.length N := by
    intro l
    obtain ⟨a1, _, a3⟩ := ring_buffer_write_all_spec l _ hwf
    rw [ring_buffer_init_contents, List.nil_append] at a3
    have a4 : (ring_buffer_init mem N).capacity = N := rfl
    rw [a4] at a3
    refine ⟨a1, a3, ?_⟩
    rw [← ring_buffer_contents_length, a3, List.length_drop]
    omega
  constructor
  · intro j hj
    have hk := (key (ws.take j)).2.2
    rw [List.length_take] at hk
    have : min j ws.length = j := by omega
    rw [this] at hk
    exact ⟨hk, by rw [hk]; omega⟩
  · intro fuel hfuel
    obtain ⟨k1, k2, k3⟩ := key ws
    obtain ⟨r1, r2, r3⟩ := ring_buffer_read_all_spec fuel _ k1 (by rw [k3]; exact hfuel)
    refine ⟨?_, ring_buffer_is_empty_of_size_zero _ r2 r3⟩
    rw [r1, k2]
    congr 1
    omega

/-- C1 at capacity 2 with the bytes 1, 2, 3 written: the size after each write
is 1, 2, 2 and the bytes read back are 2, 3. -/
theorem C1_overwrite_keeps_most_recent_witness :
    (1 ≤ 2 ∧ 2 ≤ 255 ∧ 2 ≤ [0, 0].length) ∧
    ring_buffer_size (ring_buffer_write_all (ring_buffer_init [0, 0] 2) [1, 2, 3]) = 2 ∧
    (ring_buffer_read_all 2 (ring_buffer_write_all (ring_buffer_init [0, 0] 2) [1, 2, 3])).1 =
      [2, 3] :=
  ⟨by decide,
    ((C1_overwrite_keeps_most_recent 2 [0, 0] [1, 2, 3] (by decide) (by decide)
      (by decide)).1 3 (by decide)).1,
    ((C1_overwrite_keeps_most_recent 2 [0, 0] [1, 2, 3] (by decide) (by decide)
      (by decide)).2 2 (by decide)).1⟩

/-- C2: with a configured password that is neither debug token, the command
handler realises the transition table. A command equal to `"#*O*#"` gives
`STATE_ABIERTO_PERMANENTE`; one equal to `"#*C*#"` gives `STATE_CERRADO`; one
equal to the password gives `STATE_ABIERTO_TEMPORAL` with `door_timer = now`;
any other command leaves the whole state, door state and timer included,
unchanged. The debug rows leave the timer unchanged. -/
theorem C2_cmd_transition_table (PASSWORD cmd : List Nat) (now : Nat) (s : system_t)
    (hO : c_string PASSWORD ≠ DEBUG_OPEN) (hC : c_string PASSWORD ≠ DEBUG_CLOSE) :
    (c_string cmd = DEBUG_OPEN →
      system_events_handler_cmd PASSWORD now s cmd =
        { s with door_state := STATE_ABIERTO_PERMANENTE }) ∧
    (c_string cmd = DEBUG_CLOSE →
      system_events_handler_cmd PASSWORD now s cmd = { s with door_state := STATE_CERRADO }) ∧
    (c_string cmd = c_string PASSWORD →
      system_events_handler_cmd PASSWORD now s cmd =
        { s with door_state := STATE_ABIERTO_TEMPORAL, door_timer := now }) ∧
    (c_string cmd ≠ DEBUG_OPEN → c_string cmd ≠ DEBUG_CLOSE →
      c_string cmd ≠ c_string PASSWORD →
      system_events_handler_cmd PASSWORD now s cmd = s) := by
  have eO : c_string DEBUG_OPEN = DEBUG_OPEN := by decide
  have eC : c_string DEBUG_CLOSE = DEBUG_CLOSE := by decide
  have hOC : DEBUG_OPEN ≠ DEBUG_CLOSE := by decide
  simp only [system_events_handler_cmd, strcmp_eq_zero_iff, eO, eC]
  refine ⟨?_, ?_, ?_, ?_⟩
  · intro h; rw [if_pos h]
  · intro h; rw [if_neg (by rw [h]; exact fun e => hOC e.symm), if_pos h]
  · intro h; rw [if_neg (by rw [h]; exact hO), if_neg (by rw [h]; exact hC), if_pos h]
  · intro h1 h2 h3; rw [if_neg h1, if_neg h2, if_neg h3]

/-- C2 with password `"1234"`: the wrong password `"0000"` changes nothing and
the right one unlocks temporarily at the current tick. -/
theorem C2_cmd_transition_table_witness :
    (c_string [49, 50, 51, 52] ≠ DEBUG_OPEN ∧ c_string [49, 50, 51, 52] ≠ DEBUG_CLOSE) ∧
    system_events_handler_cmd [49, 50, 51, 52] 9000
        { door_state := STATE_CERRADO, door_timer := 17, key_buffer := [], key_index := 0 }
        [48, 48, 48, 48, 0] =
      { door_state := STATE_CERRADO, door_timer := 17, key_buffer := [], key_index := 0 } ∧
    system_events_handler_cmd [49, 50, 51, 52] 9000
        { door_state := STATE_CERRADO, door_timer := 17, key_buffer := [], key_index := 0 }
        [49, 50, 51, 52, 0] =
      { door_state := STATE_ABIERTO_TEMPORAL, door_timer := 9000, key_buffer := [],
        key_index := 0 } :=
  ⟨by decide,
    (C2_cmd_transition_table [49, 50, 51, 52] [48, 48, 48, 48, 0] 9000
      { door_state := STATE_CERRADO, door_timer := 17, key_buffer := [], key_index := 0 }
      (by decide) (by decide)).2.2.2 (by decide) (by decide) (by decide),
    (C2_cmd_transition_table [49, 50, 51, 52] [49, 50, 51, 52, 0] 9000
      { door_state := STATE_CERRADO, door_timer := 17, key_buffer := [], key_index := 0 }
      (by decide) (by decide)).2.2.1 (by decide)⟩

/-- C3, as amended: for a line `L` of `1..31` bytes without `'\r'` and `'\n'`,
written with a following `'\r'` to an empty well-formed ring buffer whose
capacity is larger than the length of `L`, `process_uart_commands` returns,
and it leaves the door state `STATE_ABIERTO_TEMPORAL` (from another state)
only if the bytes of `L` before its first NUL are byte for byte the
configured password; when `L` holds no NUL this is all of `L`. -/
theorem C3_password_needs_exact_match (PASSWORD : List Nat) (now ch0 : Nat) (cmd0 : List Nat)
    (fuel : Nat) (rb : ring_buffer_t) (s : system_t) (L : List Nat)
    (hwf : ring_buffer_wf rb) (hempty : ring_buffer_size rb = 0)
    (h1 : 1 ≤ L.length) (hlen : L.length ≤ 31) (hcap : L.length < rb.capacity)
    (hnt : ∀ b ∈ L, b ≠ 13 ∧ b ≠ 10) (hc : cmd0.length = 32) (hfuel : L.length + 1 < fuel)
    (hs : s.door_state ≠ STATE_ABIERTO_TEMPORAL) :
    ∃ rb1 s1 e,
      process_uart_commands PASSWORD now ch0 cmd0 fuel (ring_buffer_write_all rb (L ++ [13])) s =
        some (rb1, s1, e) ∧
      (s1.door_state = STATE_ABIERTO_TEMPORAL →
        c_string L = c_string PASSWORD ∧ ((∀ b ∈ L, b ≠ 0) → L = c_string PASSWORD)) := by
  refine ⟨_, _, _, process_uart_commands_of_line PASSWORD now ch0 cmd0 fuel rb s L 13 hwf hempty
    h1 hlen hcap hnt (Or.inl rfl) hc hfuel, ?_⟩
  intro hst
  have hp : c_string L = c_string PASSWORD := by
    simp only [system_events_handler_cmd, strcmp_eq_zero_iff] at hst
    by_cases c1 : c_string L = c_string DEBUG_OPEN
    · rw [if_pos c1] at hst; exact absurd hst (by simp)
    · rw [if_neg c1] at hst
      by_cases c2 : c_string L = c_string DEBUG_CLOSE
      · rw [if_pos c2] at hst; exact absurd hst (by simp)
      · rw [if_neg c2] at hst
        by_cases c3 : c_string L = c_string PASSWORD
        · exact c3
        · rw [if_neg c3] at hst; exact absurd hst hs
  exact ⟨hp, fun hn => by rw [← hp, c_string_of_no_nul L hn]⟩

/-- C3 at the line `"1234"` with password `"1234"`, capacity 16, door closed. -/
theorem C3_password_needs_exact_match_witness :
    ∃ rb1 s1 e,
      process_uart_commands [49, 50, 51, 52] 7 0 (List.replicate 32 0) 10
          (ring_buffer_write_all (ring_buffer_init (List.replicate 16 0) 16)
            ([49, 50, 51, 52] ++ [13]))
          { door_state := STATE_CERRADO, door_timer := 0, key_buffer := [], key_index := 0 } =
        some (rb1, s1, e) ∧
      (s1.door_state = STATE_ABIERTO_TEMPORAL →
        c_string [49, 50, 51, 52] = c_string [49, 50, 51, 52] ∧
        ((∀ b ∈ [49, 50, 51, 52], b ≠ 0) → [49, 50, 51, 52] = c_string [49, 50, 51, 52])) :=
  C3_password_needs_exact_match [49, 50, 51, 52] 7 0 (List.replicate 32 0) 10
    (ring_buffer_init (List.replicate 16 0) 16)
    { door_state := STATE_CERRADO, door_timer := 0, key_buffer := [], key_index := 0 }
    [49, 50, 51, 52] (by decide) (by decide) (by decide) (by decide) (by decide) (by decide)
    (by decide) (by decide) (by decide)

/-- C3 as stated fails at two inputs, both with password `"1234"` and the door
closed. The six-byte line `"1234\0A"` (capacity 16) unlocks the door although
it is not the password: the comparison stops at the NUL. The six-byte line
`"991234"` written to a ring buffer of capacity 5 unlocks the door as well:
the two oldest bytes are overwritten before the drain. -/
theorem C3_password_needs_exact_match_counterexample :
    ((process_uart_commands [49, 50, 51, 52] 7 0 (List.replicate 32 0) 100
        (ring_buffer_write_all (ring_buffer_init (List.replicate 16 0) 16)
          ([49, 50, 51, 52, 0, 65] ++ [13]))
        { door_state := STATE_CERRADO, door_timer := 0, key_buffer := [], key_index := 0 }).map
        (fun r => r.2.1.door_state) = some STATE_ABIERTO_TEMPORAL ∧
      [49, 50, 51, 52, 0, 65] ≠ [49, 50, 51, 52]) ∧
    ((process_uart_commands [49, 50, 51, 52] 7 0 (List.replicate 32 0) 100
        (ring_buffer_write_all (ring_buffer_init (List.replicate 5 0) 5)
          ([57, 57, 49, 50, 51, 52] ++ [13]))
        { door_state := STATE_CERRADO, door_timer := 0, key_buffer := [], key_index := 0 }).map
        (fun r => r.2.1.door_state) = some STATE_ABIERTO_TEMPORAL ∧
      [57, 57, 49, 50, 51, 52] ≠ [49, 50, 51, 52]) := by
  decide

/-- C4, as amended: from `STATE_CERRADO` a single press at tick `t0` gives
`STATE_ABIERTO_TEMPORAL` with `door_timer = t0`; a re-evaluation at a tick `t`
whose unsigned 32-bit distance from `t0` is more than 5000 gives
`STATE_CERRADO`, and one at a distance of at most 5000 (5000 included) leaves
`STATE_ABIERTO_TEMPORAL`. -/
theorem C4_press_then_timeout (s : system_t) (t0 t : Nat) (hs : s.door_state = STATE_CERRADO) :
    (system_events_handler_button t0 s 1).door_state = STATE_ABIERTO_TEMPORAL ∧
    (system_events_handler_button t0 s 1).door_timer = t0 ∧
    (sub_u32 t t0 > 5000 →
      (system_state_machine t (system_events_handler_button t0 s 1)).door_state =
        STATE_CERRADO) ∧
    (sub_u32 t t0 ≤ 5000 →
      (system_state_machine t (system_events_handler_button t0 s 1)).door_state =
        STATE_ABIERTO_TEMPORAL) := by
  have e : system_events_handler_button t0 s 1 =
      { s with door_state := STATE_ABIERTO_TEMPORAL, door_timer := t0 } := by
    simp [system_events_handler_button, hs]
  rw [e]
  refine ⟨rfl, rfl, ?_, ?_⟩
  · intro h; simp [system_state_machine, h]
  · intro h
    have : ¬ sub_u32 t t0 > 5000 := by omega
    simp [system_state_machine, this]

/-- C4 at a press at tick 100 and a re-evaluation at tick 5101. -/
theorem C4_press_then_timeout_witness :
    (system_state_machine 5101 (system_events_handler_button 100
      { door_state := STATE_CERRADO, door_timer := 0, key_buffer := [], key_index := 0 }
      1)).door_state = STATE_CERRADO :=
  (C4_press_then_timeout
    { door_state := STATE_CERRADO, door_timer := 0, key_buffer := [], key_index := 0 }
    100 5101 rfl).2.2.1 (by decide)

/-- C4 as stated fails at `t - t0 = 5000`: pressed at tick 0 and re-evaluated
at tick 5000 the door is still `STATE_ABIERTO_TEMPORAL`. -/
theorem C4_press_then_timeout_counterexample :
    sub_u32 5000 0 ≥ 5000 ∧
    (system_state_machine 5000 (system_events_handler_button 0
      { door_state := STATE_CERRADO, door_timer := 0, key_buffer := [], key_index := 0 }
      1)).door_state ≠ STATE_CERRADO := by
  decide

/-- C5: `system_state_machine` changes the door state exactly when the state
is `STATE_ABIERTO_TEMPORAL` and the unsigned 32-bit difference
`now - door_timer` exceeds 5000, and the new state is then `STATE_CERRADO`;
in every other case nothing changes; the timer is never modified. For ticks in
the 32-bit range the difference is `now - door_timer` when the counter has not
wrapped and `now + 2^32 - door_timer` when it has. -/
theorem C5_timeout_rule (s : system_t) (now : Nat) :
    ((system_state_machine now s).door_state ≠ s.door_state ↔
      (s.door_state = STATE_ABIERTO_TEMPORAL ∧ sub_u32 now s.door_timer > 5000)) ∧
    (s.door_state = STATE_ABIERTO_TEMPORAL ∧ sub_u32 now s.door_timer > 5000 →
      (system_state_machine now s).door_state = STATE_CERRADO) ∧
    (¬ (s.door_state = STATE_ABIERTO_TEMPORAL ∧ sub_u32 now s.door_timer > 5000) →
      system_state_machine now s = s) ∧
    (system_state_machine now s).door_timer = s.door_timer ∧
    (now < 2 ^ 32 → s.door_timer < 2 ^ 32 →
      sub_u32 now s.door_timer =
        if s.door_timer ≤ now then now - s.door_timer else now + 2 ^ 32 - s.door_timer) := by
  refine ⟨?_, ?_, ?_, ?_, ?_⟩
  · cases hd : s.door_state <;> simp only [system_state_machine, hd]
    · simp
    · by_cases h : sub_u32 now s.door_timer > 5000
      · simp [h, hd]
      · simp [h, hd]
    · simp
  · rintro ⟨hd, h⟩
    simp [system_state_machine, hd, h]
  · intro h
    cases hd : s.door_state <;> simp only [system_state_machine, hd]
    have : ¬ sub_u32 now s.door_timer > 5000 := fun h2 => h ⟨hd, h2⟩
    rw [if_neg this]
  · cases hd : s.door_state <;> simp only [system_state_machine, hd]
    split_ifs <;> rfl
  · intro h1 h2
    unfold sub_u32
    split_ifs <;> omega

/-- C6: the button handler realises the button table. A double press gives
`STATE_ABIERTO_PERMANENTE` from any state; a single press gives `STATE_CERRADO`
from `STATE_ABIERTO_PERMANENTE`, gives `STATE_ABIERTO_TEMPORAL` with
`door_timer = now` from `STATE_CERRADO`, and changes nothing (state and timer)
from `STATE_ABIERTO_TEMPORAL`; any other count changes nothing. A double press
followed by a single press ends in `STATE_CERRADO` from any state. -/
theorem C6_button_transition_table (s : system_t) (now c : Nat) :
    (c = 2 → system_events_handler_button now s c =
      { s with door_state := STATE_ABIERTO_PERMANENTE }) ∧
    (c = 1 → s.door_state = STATE_ABIERTO_PERMANENTE →
      system_events_handler_button now s c = { s with door_state := STATE_CERRADO }) ∧
    (c = 1 → s.door_state = STATE_CERRADO →
      system_events_handler_button now s c =
        { s with door_state := STATE_ABIERTO_TEMPORAL, door_timer := now }) ∧
    (c = 1 → s.door_state = STATE_ABIERTO_TEMPORAL →
      system_events_handler_button now s c = s) ∧
    (c ≠ 1 → c ≠ 2 → system_events_handler_button now s c = s) ∧
    (∀ later : Nat,
      (system_events_handler_button later (system_events_handler_button now s 2) 1).door_state =
        STATE_CERRADO) := by
  refine ⟨?_, ?_, ?_, ?_, ?_, ?_⟩
  · intro hc; simp [system_events_handler_button, hc]
  · intro hc hd; simp [system_events_handler_button, hc, hd]
  · intro hc hd; simp [system_events_handler_button, hc, hd]
  · intro hc hd; simp [system_events_handler_button, hc, hd]
  · intro h1 h2; simp [system_events_handler_button, h1, h2]
  · intro later; simp [system_events_handler_button]

/-- C7: with `KEYPAD_BUFFER_SIZE = 32` and password `"1234"`, from an empty
keypad buffer and any door state, the keystrokes `'#','*','O','*','#'` complete
two commands, `"#"` and `"*O*#"`, and leave the door state and the timer as
they were: the first `'#'` already terminates a command, so `"#*O*#"` is never
compared and the door is not opened. -/
theorem C7_keypad_debug_open_is_split (d : door_state_t) (t now : Nat) :
    system_feed_keys [49, 50, 51, 52] 32 now
        { door_state := d, door_timer := t, key_buffer := List.replicate 32 0, key_index := 0 }
        [35, 42, 79, 42, 35] =
      ({ door_state := d, door_timer := t, key_buffer := List.replicate 32 0, key_index := 0 },
        [[35], [42, 79, 42, 35]]) := by
  simp [system_feed_keys, system_events_handler_key, strcmp, c_string, DEBUG_OPEN, DEBUG_CLOSE,
    List.takeWhile, List.replicate]

/-- C8: a line `L` of `1..31` bytes without `'\r'`, `'\n'` and NUL, written with
one following terminator to an empty well-formed ring buffer whose capacity is
larger than the line: one call of `process_uart_commands` returns, has passed
exactly one command to `system_events_handler_cmd`, equal to `L`, and has
emptied the ring buffer; the state it leaves is the handler's result on `L`, so
when `L` is the configured password (and not a debug token) the door state is
`STATE_ABIERTO_TEMPORAL` with `door_timer = now`. -/
theorem C8_uart_line_is_one_command (PASSWORD : List Nat) (now ch0 : Nat) (cmd0 : List Nat)
    (fuel : Nat) (rb : ring_buffer_t) (s : system_t) (L : List Nat) (t : Nat)
    (hwf : ring_buffer_wf rb) (hempty : ring_buffer_size rb = 0)
    (h1 : 1 ≤ L.length) (hlen : L.length ≤ 31) (hcap : L.length < rb.capacity)
    (hnt : ∀ b ∈ L, b ≠ 13 ∧ b ≠ 10 ∧ b ≠ 0) (ht : t = 13 ∨ t = 10)
    (hc : cmd0.length = 32) (hfuel : L.length + 1 < fuel) :
    ∃ rb1,
      process_uart_commands PASSWORD now ch0 cmd0 fuel (ring_buffer_write_all rb (L ++ [t])) s =
        some (rb1, system_events_handler_cmd PASSWORD now s L, [L]) ∧
      ring_buffer_size rb1 = 0 ∧
      (c_string PASSWORD = L → L ≠ DEBUG_OPEN → L ≠ DEBUG_CLOSE →
        (system_events_handler_cmd PASSWORD now s L).door_state = STATE_ABIERTO_TEMPORAL ∧
        (system_events_handler_cmd PASSWORD now s L).door_timer = now) := by
  have hcs : c_string L = L := c_string_of_no_nul L (fun b hb => (hnt b hb).2.2)
  have hrun := process_uart_commands_of_line PASSWORD now ch0 cmd0 fuel rb s L t hwf hempty
    h1 hlen hcap (fun b hb => ⟨(hnt b hb).1, (hnt b hb).2.1⟩) ht hc hfuel
  rw [hcs] at hrun
  obtain ⟨w1, w2, w3⟩ := ring_buffer_write_all_spec (L ++ [t]) rb hwf
  have hsize : ring_buffer_size (ring_buffer_write_all rb (L ++ [t])) ≤ fuel := by
    have := ring_buffer_size_le _ w1
    rw [w2] at this
    rw [← ring_buffer_contents_length, w3, List.length_drop, List.length_append,
      List.length_append, List.length_singleton, ring_buffer_contents_length, hempty]
    omega
  refine ⟨_, hrun, (ring_buffer_read_all_spec fuel _ w1 hsize).2.2, ?_⟩
  intro hp hO hC
  have eO : c_string DEBUG_OPEN = DEBUG_OPEN := by decide
  have eC : c_string DEBUG_CLOSE = DEBUG_CLOSE := by decide
  simp only [system_events_handler_cmd, strcmp_eq_zero_iff, hcs, eO, eC, hp]
  rw [if_neg hO, if_neg hC]
  simp

/-- C8 at the bytes `"1234\r"` with password `"1234"`, capacity 16, door closed:
one command `"1234"`, and the door ends temporarily open. -/
theorem C8_uart_line_is_one_command_witness :
    ∃ rb1,
      process_uart_commands [49, 50, 51, 52] 7 0 (List.replicate 32 0) 10
          (ring_buffer_write_all (ring_buffer_init (List.replicate 16 0) 16)
            ([49, 50, 51, 52] ++ [13]))
          { door_state := STATE_CERRADO, door_timer := 0, key_buffer := [], key_index := 0 } =
        some (rb1,
          { door_state := STATE_ABIERTO_TEMPORAL, door_timer := 7, key_buffer := [],
            key_index := 0 },
          [[49, 50, 51, 52]]) :=
  (C8_uart_line_is_one_command [49, 50, 51, 52] 7 0 (List.replicate 32 0) 10
    (ring_buffer_init (List.replicate 16 0) 16)
    { door_state := STATE_CERRADO, door_timer := 0, key_buffer := [], key_index := 0 }
    [49, 50, 51, 52] 13 (by decide) (by decide) (by decide) (by decide) (by decide)
    (by decide) (by decide) (by decide) (by decide)).imp (fun _ h => h.1)

/-- C9, as amended: `ring_buffer_init` has no failure path. For every capacity,
0 included, it returns the record with that capacity over the given memory,
with `head`, `tail` and the full flag cleared, which reads as an empty buffer;
for a capacity of at least 1 this is the buffer the specification's `init`
returns. -/
theorem C9_init_sets_fields (mem : List Nat) (capacity : Nat) :
    ring_buffer_init mem capacity =
      { buffer := mem, capacity := capacity, head := 0, tail := 0, is_full := 0 } ∧
    ring_buffer_is_empty (ring_buffer_init mem capacity) = 1 ∧
    ring_buffer_is_full (ring_buffer_init mem capacity) = 0 ∧
    ring_buffer_size (ring_buffer_init mem capacity) = 0 ∧
    (1 ≤ capacity →
      ring_buffer_init_spec mem capacity = Except.ok (ring_buffer_init mem capacity)) := by
  refine ⟨rfl, rfl, rfl, rfl, ?_⟩
  intro h
  have : capacity ≠ 0 := by omega
  simp [ring_buffer_init_spec, ring_buffer_init, this]

/-- C9 as stated fails at capacity 0: the specification's `init` fails with
`InvalidCapacity`, while `ring_buffer_init` returns a record of capacity 0 that
`ring_buffer_is_empty` accepts as an empty buffer. -/
theorem C9_init_sets_fields_counterexample :
    ring_buffer_init_spec [0, 0, 0, 0] 0 = Except.error ring_buffer_error.InvalidCapacity ∧
    ring_buffer_init [0, 0, 0, 0] 0 =
      { buffer := [0, 0, 0, 0], capacity := 0, head := 0, tail := 0, is_full := 0 } ∧
    ring_buffer_is_empty (ring_buffer_init [0, 0, 0, 0] 0) = 1 ∧
    ring_buffer_init_spec [0, 0, 0, 0] 0 ≠ Except.ok (ring_buffer_init [0, 0, 0, 0] 0) := by
  refine ⟨rfl, rfl, rfl, ?_⟩
  intro h
  simp [ring_buffer_init_spec] at h

/-- C10: on a well-formed ring buffer `ring_buffer_read` returns 0 exactly when
the buffer is empty (`ring_buffer_is_empty`, equivalently size 0), and then the
record and the output byte are unchanged; otherwise it returns 1, delivers
`buffer[tail]`, which is the oldest unread byte, advances `tail` to
`(tail + 1) mod capacity`, clears the full flag, leaves `head`, the capacity
and the stored bytes unchanged, and the size goes down by exactly 1. -/
theorem C10_read_contract (rb : ring_buffer_t) (byte : Nat) (hwf : ring_buffer_wf rb) :
    ((ring_buffer_read rb byte).2.1 = 0 ↔ ring_buffer_is_empty rb = 1) ∧
    (ring_buffer_is_empty rb = 1 ↔ ring_buffer_size rb = 0) ∧
    (ring_buffer_is_empty rb = 1 → ring_buffer_read rb byte = (rb, 0, byte)) ∧
    (ring_buffer_is_empty rb ≠ 1 →
      (ring_buffer_read rb byte).2.1 = 1 ∧
      (ring_buffer_read rb byte).2.2 = rb.buffer.getD rb.tail 0 ∧
      ring_buffer_contents rb =
        (ring_buffer_read rb byte).2.2 :: ring_buffer_contents (ring_buffer_read rb byte).1 ∧
      (ring_buffer_read rb byte).1.tail = (rb.tail + 1) % rb.capacity ∧
      (ring_buffer_read rb byte).1.is_full = 0 ∧
      (ring_buffer_read rb byte).1.head = rb.head ∧
      (ring_buffer_read rb byte).1.buffer = rb.buffer ∧
      (ring_buffer_read rb byte).1.capacity = rb.capacity ∧
      ring_buffer_size (ring_buffer_read rb byte).1 + 1 = ring_buffer_size rb) := by
  have hiff : ring_buffer_is_empty rb = 1 ↔ ring_buffer_size rb = 0 := by
    constructor
    · intro h
      exact (ring_buffer_is_empty_iff rb hwf).mp (by rw [h]; exact one_ne_zero)
    · exact ring_buffer_is_empty_of_size_zero rb hwf
  by_cases h0 : ring_buffer_size rb = 0
  · have he := hiff.mpr h0
    have hr := ring_buffer_read_of_zero rb byte hwf h0
    refine ⟨?_, hiff, fun _ => hr, fun hne => absurd he hne⟩
    rw [hr]
    exact ⟨fun _ => he, fun _ => rfl⟩
  · have hp : 0 < ring_buffer_size rb := by omega
    have hne : ring_buffer_is_empty rb ≠ 1 := fun h => h0 (hiff.mp h)
    have hr := ring_buffer_read_of_pos rb byte hp
    refine ⟨?_, hiff, fun h => absurd h hne, fun _ => ?_⟩
    · rw [hr]
      exact ⟨fun h => absurd h one_ne_zero, fun h => absurd h hne⟩
    · rw [hr]
      refine ⟨rfl, rfl, ring_buffer_read_contents rb hwf hp, rfl, rfl, rfl, rfl, rfl, ?_⟩
      have := ring_buffer_read_size rb hwf hp
      simp only [] at this ⊢
      omega

/-- C10 on the buffer of capacity 2 that holds the single byte 7. -/
theorem C10_read_contract_witness :
    ring_buffer_wf (ring_buffer_write (ring_buffer_init [0, 0] 2) 7) ∧
    ring_buffer_read (ring_buffer_write (ring_buffer_init [0, 0] 2) 7) 0 =
      ({ buffer := [7, 0], capacity := 2, head := 1, tail := 1, is_full := 0 }, 1, 7) ∧
    ((ring_buffer_read (ring_buffer_write (ring_buffer_init [0, 0] 2) 7) 0).2.1 = 0 ↔
      ring_buffer_is_empty (ring_buffer_write (ring_buffer_init [0, 0] 2) 7) = 1) :=
  ⟨by decide, by decide,
    (C10_read_contract (ring_buffer_write (ring_buffer_init [0, 0] 2) 7) 0 (by decide)).1⟩

/-- C11: on a well-formed empty ring buffer, whatever the common position of
`head` and `tail`, `ring_buffer_write` of a byte `b` followed at once by
`ring_buffer_read` returns 1 with the byte `b` and leaves the buffer empty. -/
theorem C11_write_read_round_trip (rb : ring_buffer_t) (b byte : Nat)
    (hwf : ring_buffer_wf rb) (hempty : ring_buffer_is_empty rb = 1) :
    (ring_buffer_read (ring_buffer_write rb b) byte).2.1 = 1 ∧
    (ring_buffer_read (ring_buffer_write rb b) byte).2.2 = b ∧
    ring_buffer_is_empty (ring_buffer_read (ring_buffer_write rb b) byte).1 = 1 ∧
    ring_buffer_size (ring_buffer_read (ring_buffer_write rb b) byte).1 = 0 := by
  have h0 : ring_buffer_size rb = 0 :=
    (ring_buffer_is_empty_iff rb hwf).mp (by rw [hempty]; exact one_ne_zero)
  have hnf : ¬ rb.is_full ≠ 0 := by
    intro hf
    have := (ring_buffer_full_iff rb hwf).mp hf
    have := hwf.1
    omega
  have hw := ring_buffer_write_wf rb b hwf
  have hsz : ring_buffer_size (ring_buffer_write rb b) = 1 := by
    rw [ring_buffer_write_size rb b hwf, h0]
    have := hwf.1
    omega
  have hc : ring_buffer_contents (ring_buffer_write rb b) = [b] := by
    rw [ring_buffer_write_contents rb b hwf, if_neg hnf]
    simp [ring_buffer_contents, h0]
  have hp : 0 < ring_buffer_size (ring_buffer_write rb b) := by omega
  have hr := ring_buffer_read_of_pos (ring_buffer_write rb b) byte hp
  have hrc := ring_buffer_read_contents (ring_buffer_write rb b) hw hp
  have hrs := ring_buffer_read_size (ring_buffer_write rb b) hw hp
  have hrw := ring_buffer_read_wf (ring_buffer_write rb b) hw
  rw [hc] at hrc
  rw [hsz] at hrs
  rw [hr]
  refine ⟨rfl, ?_, ring_buffer_is_empty_of_size_zero _ hrw hrs, hrs⟩
  exact (List.cons.inj hrc).1.symm

/-- C11 on a buffer of capacity 3 whose indices both stand at 2 (three bytes
written and read before), with the byte 9. -/
theorem C11_write_read_round_trip_witness :
    ring_buffer_wf { buffer := [1, 2, 3], capacity := 3, head := 2, tail := 2, is_full := 0 } ∧
    ring_buffer_read
        (ring_buffer_write
          { buffer := [1, 2, 3], capacity := 3, head := 2, tail := 2, is_full := 0 } 9) 0 =
      ({ buffer := [1, 2, 9], capacity := 3, head := 0, tail := 0, is_full := 0 }, 1, 9) ∧
    (ring_buffer_read
        (ring_buffer_write
          { buffer := [1, 2, 3], capacity := 3, head := 2, tail := 2, is_full := 0 } 9) 0).2.2 =
      9 :=
  ⟨by decide, by decide,
    (C11_write_read_round_trip
      { buffer := [1, 2, 3], capacity := 3, head := 2, tail := 2, is_full := 0 } 9 0
      (by decide) (by decide)).2.1⟩

/-- C12: after `ring_buffer_reset`, from any record whatever (empty, partial,
full, or with indices out of range), `ring_buffer_is_empty` is 1,
`ring_buffer_is_full` is 0 and `ring_buffer_size` is 0; the capacity and the
stored bytes are those of before; a second reset changes nothing. -/
theorem C12_reset_empties (rb : ring_buffer_t) :
    ring_buffer_is_empty (ring_buffer_reset rb) = 1 ∧
    ring_buffer_is_full (ring_buffer_reset rb) = 0 ∧
    ring_buffer_size (ring_buffer_reset rb) = 0 ∧
    (ring_buffer_reset rb).capacity = rb.capacity ∧
    (ring_buffer_reset rb).buffer = rb.buffer ∧
    ring_buffer_reset (ring_buffer_reset rb) = ring_buffer_reset rb :=
  ⟨rfl, rfl, rfl, rfl, rfl, rfl⟩

/-- C16: for a capacity `N` in `1..255` the predicate `head < N`, `tail < N`,
full flag only with `head = tail` holds after `ring_buffer_init` and is
preserved, with the capacity, by `ring_buffer_reset`, `ring_buffer_write` and
`ring_buffer_read`. In every state satisfying it `ring_buffer_size` is `N`
when the full flag is raised and `(head - tail) mod N` otherwise, so it is at
most `N`; `ring_buffer_is_empty` holds exactly when the size is 0 and
`ring_buffer_is_full` exactly when it is `N`. -/
theorem C16_index_invariant (N : Nat) (h1 : 1 ≤ N) (h2 : N ≤ 255) :
    (∀ mem, ring_buffer_inv (ring_buffer_init mem N) ∧ (ring_buffer_init mem N).capacity = N) ∧
    (∀ rb : ring_buffer_t, rb.capacity = N → ring_buffer_inv rb →
      (ring_buffer_inv (ring_buffer_reset rb) ∧ (ring_buffer_reset rb).capacity = N) ∧
      (∀ b, ring_buffer_inv (ring_buffer_write rb b) ∧ (ring_buffer_write rb b).capacity = N) ∧
      (∀ byte, ring_buffer_inv (ring_buffer_read rb byte).1 ∧
        (ring_buffer_read rb byte).1.capacity = N)) ∧
    (∀ rb : ring_buffer_t, rb.capacity = N → ring_buffer_inv rb →
      (rb.is_full ≠ 0 → ring_buffer_size rb = N) ∧
      (rb.is_full = 0 →
        (ring_buffer_size rb : Int) = ((rb.head : Int) - (rb.tail : Int)) % (N : Int)) ∧
      ring_buffer_size rb ≤ N ∧
      (ring_buffer_is_empty rb ≠ 0 ↔ ring_buffer_size rb = 0) ∧
      (ring_buffer_is_full rb ≠ 0 ↔ ring_buffer_size rb = N)) := by
  refine ⟨?_, ?_, ?_⟩
  · intro mem
    exact ⟨⟨h1, h1, fun hf => absurd rfl hf⟩, rfl⟩
  · intro rb hc hinv
    have hc1 : 1 ≤ rb.capacity := by omega
    refine ⟨⟨⟨?_, ?_, fun hf => absurd rfl hf⟩, hc⟩, fun b => ⟨ring_buffer_inv_write rb b hc1 hinv, hc⟩,
      fun byte => ⟨ring_buffer_inv_read rb byte hc1 hinv, ?_⟩⟩
    · show 0 < rb.capacity
      omega
    · show 0 < rb.capacity
      omega
    · unfold ring_buffer_read
      split_ifs
      · exact hc
      · exact hc
  · intro rb hc hinv
    have hc1 : 1 ≤ rb.capacity := by omega
    have hc2 : rb.capacity ≤ 255 := by omega
    have hs := ring_buffer_size_of_inv rb hc1 hc2 hinv
    have hlt : (rb.head + rb.capacity - rb.tail) % rb.capacity < rb.capacity :=
      Nat.mod_lt _ (by omega)
    obtain ⟨h4, h5, h6⟩ := hinv
    have hmod := mod_wrap rb.capacity (rb.head + rb.capacity - rb.tail) (by omega)
    refine ⟨?_, ?_, ?_, ?_, ?_⟩
    · intro hf; rw [hs, if_pos hf, hc]
    · intro hf
      rw [hs, if_neg (by simp [hf]), int_sub_emod rb.capacity rb.head rb.tail h4 h5, hc]
    · rw [hs]; split_ifs <;> omega
    · unfold ring_buffer_is_empty
      rw [hs]
      by_cases hf : rb.is_full ≠ 0
      · have hf2 : ¬ (rb.is_full = 0 ∧ rb.head = rb.tail) := fun hh => hf hh.1
        rw [if_pos hf, if_neg hf2]
        constructor
        · intro hh; exact absurd rfl hh
        · intro hh; omega
      · have hf0 : rb.is_full = 0 := by omega
        rw [if_neg hf, hmod]
        by_cases hht : rb.head = rb.tail
        · rw [if_pos ⟨hf0, hht⟩]
          constructor
          · intro _; split_ifs <;> omega
          · intro _; exact one_ne_zero
        · have hne : ¬ (rb.is_full = 0 ∧ rb.head = rb.tail) := fun hh => hht hh.2
          rw [if_neg hne]
          constructor
          · intro hh; exact absurd rfl hh
          · intro hh; split_ifs at hh <;> omega
    · unfold ring_buffer_is_full
      rw [hs]
      by_cases hf : rb.is_full ≠ 0
      · rw [if_pos hf]
        exact ⟨fun _ => hc, fun _ => hf⟩
      · rw [if_neg hf]
        constructor
        · intro hh; exact absurd hh hf
        · intro hh; omega

/-- C16 at capacity 3: the state after four writes is full with both indices
at 1 and reads as 3 bytes; the state after one more read holds 2. -/
theorem C16_index_invariant_witness :
    (1 ≤ 3 ∧ 3 ≤ 255) ∧
    ring_buffer_inv (ring_buffer_write_all (ring_buffer_init [0, 0, 0] 3) [1, 2, 3, 4]) ∧
    ring_buffer_size (ring_buffer_write_all (ring_buffer_init [0, 0, 0] 3) [1, 2, 3, 4]) ≤ 3 ∧
    ring_buffer_inv (ring_buffer_init [0, 0, 0] 3) :=
  ⟨by decide, by decide,
    ((C16_index_invariant 3 (by decide) (by decide)).2.2
      (ring_buffer_write_all (ring_buffer_init [0, 0, 0] 3) [1, 2, 3, 4]) rfl (by decide)).2.2.1,
    ((C16_index_invariant 3 (by decide) (by decide)).1 [0, 0, 0]).1⟩

/-- C14: in `process_uart_commands` a terminator (`'\r'` or `'\n'`) read while
no byte is pending changes nothing: no command, same door state, same timer.
So a well-formed ring buffer that holds only terminators is drained with zero
commands and an unchanged state, and a line of `1..31` bytes followed by the
pair `"\r\n"` gives exactly one command. -/
theorem C14_terminator_on_empty_line (PASSWORD : List Nat) (now : Nat) :
    (∀ (l : uart_line_t) (t : Nat), (t = 13 ∨ t = 10) → l.i = 0 →
      process_uart_byte PASSWORD now l t = l) ∧
    (∀ (ch0 : Nat) (cmd0 : List Nat) (fuel : Nat) (rb : ring_buffer_t) (s : system_t),
      ring_buffer_wf rb → (∀ b ∈ ring_buffer_contents rb, b = 13 ∨ b = 10) →
      ring_buffer_size rb < fuel →
      ∃ rb1, process_uart_commands PASSWORD now ch0 cmd0 fuel rb s = some (rb1, s, []) ∧
        ring_buffer_size rb1 = 0) ∧
    (∀ (ch0 : Nat) (cmd0 : List Nat) (fuel : Nat) (rb : ring_buffer_t) (s : system_t)
      (L : List Nat),
      ring_buffer_wf rb → ring_buffer_contents rb = L ++ [13, 10] →
      1 ≤ L.length → L.length ≤ 31 → (∀ b ∈ L, b ≠ 13 ∧ b ≠ 10) → cmd0.length = 32 →
      ring_buffer_size rb < fuel →
      ∃ rb1, process_uart_commands PASSWORD now ch0 cmd0 fuel rb s =
          some (rb1, system_events_handler_cmd PASSWORD now s L, [c_string L]) ∧
        ring_buffer_size rb1 = 0) := by
  refine ⟨?_, ?_, ?_⟩
  · intro l t ht hi
    unfold process_uart_byte
    rw [if_pos ht, if_neg (by omega)]
  · intro ch0 cmd0 fuel rb s hwf hall hfuel
    refine ⟨_, ?_, (ring_buffer_read_all_spec fuel rb hwf (by omega)).2.2⟩
    rw [process_uart_commands_of_contents PASSWORD now ch0 cmd0 fuel rb s hwf hfuel,
      process_uart_bytes_of_terminators PASSWORD now _ _ rfl hall]
  · intro ch0 cmd0 fuel rb s L hwf hcont h1 hlen hnt hc hfuel
    refine ⟨_, ?_, (ring_buffer_read_all_spec fuel rb hwf (by omega)).2.2⟩
    have e : L ++ [13, 10] = L ++ [13] ++ [10] := by simp
    rw [process_uart_commands_of_contents PASSWORD now ch0 cmd0 fuel rb s hwf hfuel, hcont, e,
      List.foldl_append, List.foldl_append,
      process_uart_bytes_of_line PASSWORD now cmd0 s [] L hlen hc hnt]
    simp only [List.foldl_cons, List.foldl_nil]
    rw [process_uart_byte_of_terminator PASSWORD now cmd0 s [] L 13 h1 hlen hc (Or.inl rfl)]
    simp [process_uart_byte]

/-- C14 on a ring buffer of capacity 8: the bytes `"\r\n\n"` give no command,
and the bytes `"12\r\n"` give the single command `"12"`. -/
theorem C14_terminator_on_empty_line_witness :
    (∃ rb1, process_uart_commands [49, 50, 51, 52] 7 0 (List.replicate 32 0) 10
        (ring_buffer_write_all (ring_buffer_init (List.replicate 8 0) 8) [13, 10, 10])
        { door_state := STATE_CERRADO, door_timer := 3, key_buffer := [], key_index := 0 } =
      some (rb1,
        { door_state := STATE_CERRADO, door_timer := 3, key_buffer := [], key_index := 0 }, []) ∧
      ring_buffer_size rb1 = 0) ∧
    (∃ rb1, process_uart_commands [49, 50, 51, 52] 7 0 (List.replicate 32 0) 10
        (ring_buffer_write_all (ring_buffer_init (List.replicate 8 0) 8) [49, 50, 13, 10])
        { door_state := STATE_CERRADO, door_timer := 3, key_buffer := [], key_index := 0 } =
      some (rb1,
        system_events_handler_cmd [49, 50, 51, 52] 7
          { door_state := STATE_CERRADO, door_timer := 3, key_buffer := [], key_index := 0 }
          [49, 50],
        [c_string [49, 50]]) ∧
      ring_buffer_size rb1 = 0) :=
  ⟨(C14_terminator_on_empty_line [49, 50, 51, 52] 7).2.1 0 (List.replicate 32 0) 10
      (ring_buffer_write_all (ring_buffer_init (List.replicate 8 0) 8) [13, 10, 10])
      { door_state := STATE_CERRADO, door_timer := 3, key_buffer := [], key_index := 0 }
      (by decide) (by decide) (by decide),
    (C14_terminator_on_empty_line [49, 50, 51, 52] 7).2.2 0 (List.replicate 32 0) 10
      (ring_buffer_write_all (ring_buffer_init (List.replicate 8 0) 8) [49, 50, 13, 10])
      { door_state := STATE_CERRADO, door_timer := 3, key_buffer := [], key_index := 0 }
      [49, 50] (by decide) (by decide) (by decide) (by decide) (by decide) (by decide)
      (by decide)⟩

/-- C17: on a well-formed ring buffer holding `n = ring_buffer_size` unread
bytes, the loop of `process_uart_commands` ends after exactly `n` passes: it
has not returned within `n` evaluations of its condition and has returned at
the next one. Every `ring_buffer_read` made under the loop condition returns 1.
The loop body is applied to the `n` unread bytes in order, and on return the
ring buffer is well-formed and empty, with size 0. -/
theorem C17_drain_terminates (PASSWORD : List Nat) (now ch0 : Nat) (cmd0 : List Nat)
    (rb : ring_buffer_t) (s : system_t) (hwf : ring_buffer_wf rb) :
    (∀ fuel, fuel ≤ ring_buffer_size rb →
      process_uart_commands PASSWORD now ch0 cmd0 fuel rb s = none) ∧
    (∀ fuel, ring_buffer_size rb < fuel →
      ∃ rb1 s1 e, process_uart_commands PASSWORD now ch0 cmd0 fuel rb s = some (rb1, s1, e) ∧
        ring_buffer_wf rb1 ∧ ring_buffer_size rb1 = 0 ∧ ring_buffer_is_empty rb1 = 1 ∧
        s1 = ((ring_buffer_contents rb).foldl (process_uart_byte PASSWORD now)
          { cmd := cmd0, i := 0, sys := s, emitted := [] }).sys ∧
        e = ((ring_buffer_contents rb).foldl (process_uart_byte PASSWORD now)
          { cmd := cmd0, i := 0, sys := s, emitted := [] }).emitted) ∧
    (ring_buffer_contents rb).length = ring_buffer_size rb ∧
    (∀ (rb0 : ring_buffer_t) (byte : Nat), 0 < ring_buffer_size rb0 →
      (ring_buffer_read rb0 byte).2.1 = 1 ∧
      (ring_buffer_wf rb0 →
        ring_buffer_size (ring_buffer_read rb0 byte).1 + 1 = ring_buffer_size rb0)) := by
  refine ⟨?_, ?_, ring_buffer_contents_length rb, ?_⟩
  · intro fuel hfuel
    unfold process_uart_commands
    rw [process_uart_loop_none PASSWORD now ch0 fuel rb _ hwf hfuel]
  · intro fuel hfuel
    obtain ⟨_, r2, r3⟩ := ring_buffer_read_all_spec fuel rb hwf (by omega)
    exact ⟨_, _, _, process_uart_commands_of_contents PASSWORD now ch0 cmd0 fuel rb s hwf hfuel,
      r2, r3, ring_buffer_is_empty_of_size_zero _ r2 r3, rfl, rfl⟩
  · intro rb0 byte hp
    rw [ring_buffer_read_of_pos rb0 byte hp]
    refine ⟨rfl, fun h0 => ?_⟩
    have := ring_buffer_read_size rb0 h0 hp
    simp only [] at this ⊢
    omega

/-- C17 on a buffer of capacity 4 holding the three bytes `"1\r2"`: no result
within 3 condition evaluations, a result at the 4th. -/
theorem C17_drain_terminates_witness :
    ring_buffer_wf (ring_buffer_write_all (ring_buffer_init [0, 0, 0, 0] 4) [49, 13, 50]) ∧
    process_uart_commands [49, 50, 51, 52] 7 0 (List.replicate 32 0) 3
        (ring_buffer_write_all (ring_buffer_init [0, 0, 0, 0] 4) [49, 13, 50])
        { door_state := STATE_CERRADO, door_timer := 3, key_buffer := [], key_index := 0 } =
      none ∧
    (process_uart_commands [49, 50, 51, 52] 7 0 (List.replicate 32 0) 4
        (ring_buffer_write_all (ring_buffer_init [0, 0, 0, 0] 4) [49, 13, 50])
        { door_state := STATE_CERRADO, door_timer := 3, key_buffer := [], key_index := 0 }).map
        (fun r => ring_buffer_size r.1) = some 0 :=
  ⟨by decide,
    (C17_drain_terminates [49, 50, 51, 52] 7 0 (List.replicate 32 0)
      (ring_buffer_write_all (ring_buffer_init [0, 0, 0, 0] 4) [49, 13, 50])
      { door_state := STATE_CERRADO, door_timer := 3, key_buffer := [], key_index := 0 }
      (by decide)).1 3 (by decide),
    by decide⟩

/-- C18: in `process_uart_commands` the index of the pending line never exceeds
31, and a pass of the loop changes no cell of the 32-byte array other than the
cell at that index. For a line `L` of more than 31 bytes other than `'\r'` and
`'\n'`, followed by a terminator, the bytes after the 31st are dropped: when
the loop returns the array holds the first 31 bytes of `L` followed by NUL,
exactly one command has been passed to the handler, and it is that array: the
C string of the first 31 bytes, which is those 31 bytes when none is NUL. -/
theorem C18_line_buffer_is_bounded (PASSWORD : List Nat) (now ch0 : Nat) (cmd0 : List Nat)
    (fuel : Nat) (rb : ring_buffer_t) (s : system_t) (L : List Nat) (t : Nat)
    (hwf : ring_buffer_wf rb) (hcont : ring_buffer_contents rb = L ++ [t])
    (hlen : 31 < L.length) (hnt : ∀ b ∈ L, b ≠ 13 ∧ b ≠ 10) (ht : t = 13 ∨ t = 10)
    (hc : cmd0.length = 32) (hfuel : ring_buffer_size rb < fuel) :
    (∀ (l : uart_line_t) (ch : Nat), l.i ≤ 31 →
      (process_uart_byte PASSWORD now l ch).i ≤ 31 ∧
      (∀ k, k ≠ l.i → (process_uart_byte PASSWORD now l ch).cmd.getD k 0 = l.cmd.getD k 0)) ∧
    (∀ bs : List Nat, (bs.foldl (process_uart_byte PASSWORD now)
      { cmd := cmd0, i := 0, sys := s, emitted := [] }).i ≤ 31) ∧
    (∃ rb1 l1,
      process_uart_loop PASSWORD now ch0 fuel rb
          { cmd := cmd0, i := 0, sys := s, emitted := [] } = some (rb1, l1) ∧
      l1.cmd = L.take 31 ++ [0] ∧
      l1.sys = system_events_handler_cmd PASSWORD now s (L.take 31 ++ [0]) ∧
      l1.emitted = [c_string (L.take 31)] ∧
      process_uart_commands PASSWORD now ch0 cmd0 fuel rb s =
        some (rb1, system_events_handler_cmd PASSWORD now s (L.take 31 ++ [0]),
          [c_string (L.take 31)])) ∧
    ((∀ b ∈ L.take 31, b ≠ 0) → c_string (L.take 31) = L.take 31) := by
  have htake : (L.take 31).length = 31 := by rw [List.length_take]; omega
  have hsplit : L = L.take 31 ++ L.drop 31 := (List.take_append_drop 31 L).symm
  have hnt1 : ∀ b ∈ L.take 31, b ≠ 13 ∧ b ≠ 10 := fun b hb => hnt b (List.mem_of_mem_take hb)
  have hnt2 : ∀ b ∈ L.drop 31, b ≠ 13 ∧ b ≠ 10 := fun b hb => hnt b (List.mem_of_mem_drop hb)
  have hdrop : cmd0.drop 32 = [] := List.drop_eq_nil_of_le (by omega)
  have hfold : (L ++ [t]).foldl (process_uart_byte PASSWORD now)
      { cmd := cmd0, i := 0, sys := s, emitted := [] } =
      { cmd := L.take 31 ++ [0], i := 0,
        sys := system_events_handler_cmd PASSWORD now s (L.take 31 ++ [0]),
        emitted := [c_string (L.take 31)] } := by
    have hL : (L.take 31 ++ L.drop 31).foldl (process_uart_byte PASSWORD now)
        { cmd := cmd0, i := 0, sys := s, emitted := [] } =
        { cmd := L.take 31 ++ cmd0.drop (L.take 31).length, i := (L.take 31).length, sys := s,
          emitted := [] } := by
      rw [List.foldl_append,
        process_uart_bytes_of_line PASSWORD now cmd0 s [] (L.take 31) (by omega) hc hnt1,
        process_uart_bytes_of_full_line PASSWORD now (L.drop 31) _ htake hnt2]
    rw [← hsplit] at hL
    rw [List.foldl_append, hL]
    simp only [List.foldl_cons, List.foldl_nil]
    rw [process_uart_byte_of_terminator PASSWORD now cmd0 s [] (L.take 31) t (by omega)
      (by omega) hc ht, htake, hdrop,
      system_events_handler_cmd_c_string PASSWORD now s (L.take 31 ++ [0]),
      c_string_append_nul, ← system_events_handler_cmd_c_string]
    simp
  refine ⟨fun l ch hi => ⟨process_uart_byte_index_le PASSWORD now l ch hi,
      fun k hk => process_uart_byte_cmd_getD PASSWORD now l ch k hk⟩,
    fun bs => process_uart_bytes_index_le PASSWORD now bs _ (Nat.zero_le _), ?_,
    fun hn => c_string_of_no_nul _ hn⟩
  refine ⟨_, _, process_uart_loop_spec PASSWORD now ch0 fuel rb _ hwf hfuel, ?_, ?_, ?_, ?_⟩
  · rw [hcont, hfold]
  · rw [hcont, hfold]
  · rw [hcont, hfold]
  · rw [process_uart_commands_of_contents PASSWORD now ch0 cmd0 fuel rb s hwf hfuel, hcont,
      hfold]

set_option maxRecDepth 20000 in
/-- C18 on a ring buffer of capacity 40 holding 33 bytes `'A'` and `'\r'`: one
command, the first 31 bytes. -/
theorem C18_line_buffer_is_bounded_witness :
    ∃ rb1 l1,
      process_uart_loop [49, 50, 51, 52] 7 0 40
          (ring_buffer_write_all (ring_buffer_init (List.replicate 40 0) 40)
            (List.replicate 33 65 ++ [13]))
          { cmd := List.replicate 32 0, i := 0,
            sys := { door_state := STATE_CERRADO, door_timer := 3, key_buffer := [],
                     key_index := 0 },
            emitted := [] } = some (rb1, l1) ∧
      l1.cmd = (List.replicate 33 65).take 31 ++ [0] ∧
      l1.sys = system_events_handler_cmd [49, 50, 51, 52] 7
        { door_state := STATE_CERRADO, door_timer := 3, key_buffer := [], key_index := 0 }
        ((List.replicate 33 65).take 31 ++ [0]) ∧
      l1.emitted = [c_string ((List.replicate 33 65).take 31)] ∧
      process_uart_commands [49, 50, 51, 52] 7 0 (List.replicate 32 0) 40
          (ring_buffer_write_all (ring_buffer_init (List.replicate 40 0) 40)
            (List.replicate 33 65 ++ [13]))
          { door_state := STATE_CERRADO, door_timer := 3, key_buffer := [], key_index := 0 } =
        some (rb1,
          system_events_handler_cmd [49, 50, 51, 52] 7
            { door_state := STATE_CERRADO, door_timer := 3, key_buffer := [], key_index := 0 }
            ((List.replicate 33 65).take 31 ++ [0]),
          [c_string ((List.replicate 33 65).take 31)]) :=
  (C18_line_buffer_is_bounded [49, 50, 51, 52] 7 0 (List.replicate 32 0) 40
    (ring_buffer_write_all (ring_buffer_init (List.replicate 40 0) 40)
      (List.replicate 33 65 ++ [13]))
    { door_state := STATE_CERRADO, door_timer := 3, key_buffer := [], key_index := 0 }
    (List.replicate 33 65) 13 (by decide) (by decide) (by decide) (by decide) (by decide)
    (by decide) (by decide)).2.2.1

/-- C20: `process_uart_commands` keeps no pending line between calls. For
non-empty `A` and `B` without `'\r'` and `'\n'`, of total length at most 31, and
an empty well-formed ring buffer that can hold `B` and a terminator: draining
`A` alone returns with no command and the state unchanged, and draining `B`
followed by `'\r'` in a second call returns with exactly one command, which is
`B`: the array handed to the handler holds `B` followed by NUL, the C string
read from it is `B` itself when `B` holds no NUL (and then differs from `A`
followed by `B`), and the state is the handler's result on `B`. -/
theorem C20_no_pending_line_between_calls (PASSWORD : List Nat) (now1 now2 ch0 ch1 : Nat)
    (cmd0 cmd1 : List Nat) (fuel1 fuel2 : Nat) (rb : ring_buffer_t) (s : system_t)
    (A B : List Nat)
    (hwf : ring_buffer_wf rb) (hempty : ring_buffer_size rb = 0)
    (hA : 1 ≤ A.length) (hB : 1 ≤ B.length) (hlen : A.length + B.length ≤ 31)
    (hAnt : ∀ b ∈ A, b ≠ 13 ∧ b ≠ 10) (hBnt : ∀ b ∈ B, b ≠ 13 ∧ b ≠ 10)
    (hcap : B.length < rb.capacity) (hc1 : cmd1.length = 32)
    (hfuel1 : rb.capacity < fuel1) (hfuel2 : B.length + 1 < fuel2) :
    ∃ rbA rbB,
      process_uart_commands PASSWORD now1 ch0 cmd0 fuel1 (ring_buffer_write_all rb A) s =
        some (rbA, s, []) ∧
      process_uart_commands PASSWORD now2 ch1 cmd1 fuel2 (ring_buffer_write_all rbA (B ++ [13]))
          s =
        some (rbB, system_events_handler_cmd PASSWORD now2 s B, [c_string B]) ∧
      process_uart_loop PASSWORD now2 ch1 fuel2 (ring_buffer_write_all rbA (B ++ [13]))
          { cmd := cmd1, i := 0, sys := s, emitted := [] } =
        some (rbB,
          { cmd := B ++ 0 :: cmd1.drop (B.length + 1), i := 0,
            sys := system_events_handler_cmd PASSWORD now2 s B, emitted := [c_string B] }) ∧
      ((∀ b ∈ B, b ≠ 0) → c_string B = B ∧ B ≠ A ++ B) := by
  obtain ⟨w1, w2, w3⟩ := ring_buffer_write_all_spec A rb hwf
  have hsz : ring_buffer_size (ring_buffer_write_all rb A) < fuel1 := by
    have := ring_buffer_size_le _ w1
    rw [w2] at this
    omega
  obtain ⟨_, r2, r3⟩ := ring_buffer_read_all_spec fuel1 _ w1 (by omega)
  have hcapA : (ring_buffer_read_all fuel1 (ring_buffer_write_all rb A)).2.capacity =
      rb.capacity := by
    rw [ring_buffer_read_all_capacity, w2]
  have hAsub : ∀ b ∈ ring_buffer_contents (ring_buffer_write_all rb A), b ≠ 13 ∧ b ≠ 10 := by
    intro b hb
    rw [w3] at hb
    have hb2 := List.mem_of_mem_drop hb
    have hnil : ring_buffer_contents rb = [] := by simp [ring_buffer_contents, hempty]
    rw [hnil, List.nil_append] at hb2
    exact hAnt b hb2
  obtain ⟨f1, f2⟩ := process_uart_bytes_no_terminator PASSWORD now1
    (ring_buffer_contents (ring_buffer_write_all rb A))
    { cmd := cmd0, i := 0, sys := s, emitted := [] } hAsub
  refine ⟨_, _, ?_, process_uart_commands_of_line PASSWORD now2 ch1 cmd1 fuel2 _ s B 13 r2 r3
    hB (by omega) (by rw [hcapA]; exact hcap) hBnt (Or.inl rfl) hc1 hfuel2,
    process_uart_loop_of_line PASSWORD now2 ch1 cmd1 fuel2 _ s B 13 r2 r3
    hB (by omega) (by rw [hcapA]; exact hcap) hBnt (Or.inl rfl) hc1 hfuel2, ?_⟩
  · rw [process_uart_commands_of_contents PASSWORD now1 ch0 cmd0 fuel1 _ s w1 hsz, f1, f2]
  · intro hn
    refine ⟨c_string_of_no_nul B hn, fun e => ?_⟩
    have := congrArg List.length e
    rw [List.length_append] at this
    omega

/-- C20 with `A = "12"`, `B = "34"`, password `"1234"`, capacity 8: the first
call gives no command, the second the single command `"34"`, and the door,
which `"1234"` would have opened, stays closed. -/
theorem C20_no_pending_line_between_calls_witness :
    ∃ rbA rbB,
      process_uart_commands [49, 50, 51, 52] 7 0 (List.replicate 32 0) 9
          (ring_buffer_write_all (ring_buffer_init (List.replicate 8 0) 8) [49, 50])
          { door_state := STATE_CERRADO, door_timer := 3, key_buffer := [], key_index := 0 } =
        some (rbA,
          { door_state := STATE_CERRADO, door_timer := 3, key_buffer := [], key_index := 0 },
          []) ∧
      process_uart_commands [49, 50, 51, 52] 8 0 (List.replicate 32 0) 9
          (ring_buffer_write_all rbA ([51, 52] ++ [13]))
          { door_state := STATE_CERRADO, door_timer := 3, key_buffer := [], key_index := 0 } =
        some (rbB,
          { door_state := STATE_CERRADO, door_timer := 3, key_buffer := [], key_index := 0 },
          [[51, 52]]) :=
  (C20_no_pending_line_between_calls [49, 50, 51, 52] 7 8 0 0 (List.replicate 32 0)
    (List.replicate 32 0) 9 9 (ring_buffer_init (List.replicate 8 0) 8)
    { door_state := STATE_CERRADO, door_timer := 3, key_buffer := [], key_index := 0 }
    [49, 50] [51, 52] (by decide) (by decide) (by decide) (by decide) (by decide) (by decide)
    (by decide) (by decide) (by decide) (by decide) (by decide)).imp
    (fun _ h => h.imp (fun _ h2 => ⟨h2.1, h2.2.1⟩))

/-- Exactly `C - 1` keystrokes other than `'#'` fed from an empty keypad buffer
of size `C` in `2..256`: nothing completes before the last one, which completes
the C string of the keys stored (the keys up to the first NUL among them). -/
theorem system_feed_keys_at_capacity (PASSWORD : List Nat) (C now : Nat) (s : system_t)
    (keys : List Nat) (hC2 : 2 ≤ C) (hC : C ≤ 256) (hidx : s.key_index = 0)
    (hkb : s.key_buffer.length = C) (hlen : keys.length = C - 1) (hk : ∀ k ∈ keys, k ≠ 35) :
    (∀ j, j ≤ C - 2 → (system_feed_keys PASSWORD C now s (keys.take j)).2 = []) ∧
    (system_feed_keys PASSWORD C now s keys).2 = [c_string keys] ∧
    ((∀ k ∈ keys, k ≠ 0) → (system_feed_keys PASSWORD C now s keys).2 = [keys]) ∧
    (system_feed_keys PASSWORD C now s keys).1.key_index = 0 ∧
    (system_feed_keys PASSWORD C now s keys).1.key_buffer = List.replicate C 0 ∧
    (system_feed_keys PASSWORD C now s keys).1.door_state =
      (system_events_handler_cmd PASSWORD now s keys).door_state ∧
    (system_feed_keys PASSWORD C now s keys).1.door_timer =
      (system_events_handler_cmd PASSWORD now s keys).door_timer := by
  obtain ⟨d, t, kb, ki⟩ := s
  simp only [] at hidx hkb
  subst hidx
  have hpre : ∀ j, j ≤ C - 2 →
      system_feed_keys PASSWORD C now
          { door_state := d, door_timer := t, key_buffer := kb, key_index := 0 } (keys.take j) =
        ({ door_state := d, door_timer := t,
           key_buffer := keys.take j ++ kb.drop (keys.take j).length,
           key_index := (keys.take j).length }, []) := by
    intro j hj
    exact system_feed_keys_stored PASSWORD C now d t kb (keys.take j) hC hkb
      (by rw [List.length_take]; omega) (fun k hx => hk k (List.mem_of_mem_take hx))
  rcases List.eq_nil_or_concat keys with e | ⟨K, k, e⟩
  · rw [e] at hlen; simp at hlen; omega
  rw [List.concat_eq_append] at e
  subst e
  rw [List.length_append, List.length_singleton] at hlen
  have hKl : K.length = C - 2 := by omega
  have hlast : k ≠ 35 := hk k (by simp)
  have hKk : ∀ x ∈ K, x ≠ 35 := fun x hx => hk x (by simp [hx])
  have hst : (C - 2) < C - 1 := by omega
  have hcc : k = 35 ∨ (C - 2 + 1) % 256 ≥ C - 1 := by
    right
    rw [Nat.mod_eq_of_lt (by omega)]
    omega
  have hbuf : ((K ++ kb.drop (C - 2)).set (C - 2) k).set ((C - 2 + 1) % 256) 0 =
      (K ++ [k]) ++ 0 :: kb.drop (C - 2 + 1 + 1) := by
    have e1 := set_append_drop K kb k (by omega)
    rw [hKl] at e1
    rw [e1, Nat.mod_eq_of_lt (by omega)]
    have e2 := set_append_drop (K ++ [k]) kb 0
      (by rw [List.length_append, List.length_singleton]; omega)
    rw [List.length_append, List.length_singleton, hKl] at e2
    rw [← e2]
    simp
  have hrun : system_feed_keys PASSWORD C now
      { door_state := d, door_timer := t, key_buffer := kb, key_index := 0 } (K ++ [k]) =
      ((system_events_handler_key PASSWORD C now
          { door_state := d, door_timer := t, key_buffer := K ++ kb.drop (C - 2),
            key_index := C - 2 } k).1,
        (system_events_handler_key PASSWORD C now
          { door_state := d, door_timer := t, key_buffer := K ++ kb.drop (C - 2),
            key_index := C - 2 } k).2.toList) := by
    rw [system_feed_keys_append,
      system_feed_keys_stored PASSWORD C now d t kb K hC hkb (by omega) hKk, hKl]
    simp [system_feed_keys]
  obtain ⟨c1, c2, c3⟩ := system_events_handler_key_complete PASSWORD C now
    { door_state := d, door_timer := t, key_buffer := K ++ kb.drop (C - 2),
      key_index := C - 2 } k hst hcc
  simp only [] at c1 c2 c3
  rw [hbuf, c_string_append_nul] at c1
  obtain ⟨d1, d2⟩ := system_events_handler_key_door PASSWORD C now
    { door_state := d, door_timer := t, key_buffer := K ++ kb.drop (C - 2),
      key_index := C - 2 } k (c_string (K ++ [k])) c1
  have hcmd : ∀ kb2 ki2, system_events_handler_cmd PASSWORD now
      { door_state := d, door_timer := t, key_buffer := kb2, key_index := ki2 }
        (c_string (K ++ [k])) =
      { system_events_handler_cmd PASSWORD now
          { door_state := d, door_timer := t, key_buffer := kb, key_index := 0 } (K ++ [k]) with
        key_buffer := kb2, key_index := ki2 } := by
    intro kb2 ki2
    rw [← system_events_handler_cmd_c_string]
    unfold system_events_handler_cmd
    split_ifs <;> rfl
  rw [hcmd] at d1 d2
  refine ⟨fun j hj => by rw [hpre j hj], ?_, ?_, ?_, ?_, ?_, ?_⟩
  · rw [hrun, c1]; rfl
  · intro hn
    rw [hrun, c1, c_string_of_no_nul (K ++ [k]) hn]; rfl
  · rw [hrun]; exact c2
  · rw [hrun]; exact c3
  · rw [hrun]; exact d1
  · rw [hrun]; exact d2

/-- C13, as amended: for `KEYPAD_BUFFER_SIZE = C` with `2 ≤ C ≤ 256` and exactly
`C - 1` keystrokes none of which is `'#'` or NUL, fed from an empty keypad
buffer, no command is completed while at most `C - 2` of them have been fed,
and the last one completes a command without a terminator that consists of
exactly those `C - 1` characters. After it `key_index` is 0 and `key_buffer` is
all zero, and the door state and timer are those `system_events_handler_cmd`
gives for that command. -/
theorem C13_auto_complete_at_capacity (PASSWORD : List Nat) (C now : Nat) (s : system_t)
    (keys : List Nat) (hC2 : 2 ≤ C) (hC : C ≤ 256) (hidx : s.key_index = 0)
    (hkb : s.key_buffer.length = C) (hlen : keys.length = C - 1)
    (hk : ∀ k ∈ keys, k ≠ 35 ∧ k ≠ 0) :
    (∀ j, j ≤ C - 2 → (system_feed_keys PASSWORD C now s (keys.take j)).2 = []) ∧
    (system_feed_keys PASSWORD C now s keys).2 = [keys] ∧
    (system_feed_keys PASSWORD C now s keys).1.key_index = 0 ∧
    (system_feed_keys PASSWORD C now s keys).1.key_buffer = List.replicate C 0 ∧
    (system_feed_keys PASSWORD C now s keys).1.door_state =
      (system_events_handler_cmd PASSWORD now s keys).door_state ∧
    (system_feed_keys PASSWORD C now s keys).1.door_timer =
      (system_events_handler_cmd PASSWORD now s keys).door_timer := by
  obtain ⟨g1, _, g3, g4, g5, g6, g7⟩ := system_feed_keys_at_capacity PASSWORD C now s keys
    hC2 hC hidx hkb hlen (fun k hx => (hk k hx).1)
  exact ⟨g1, g3 (fun k hx => (hk k hx).2), g4, g5, g6, g7⟩

/-- C13 at `KEYPAD_BUFFER_SIZE = 4` with the keys `'1','2','3'` and password
`"123"`: the third key completes the command `"123"` and the door opens. -/
theorem C13_auto_complete_at_capacity_witness :
    (system_feed_keys [49, 50, 51] 4 7
      { door_state := STATE_CERRADO, door_timer := 0, key_buffer := [0, 0, 0, 0], key_index := 0 }
      [49, 50, 51]).2 = [[49, 50, 51]] ∧
    (system_feed_keys [49, 50, 51] 4 7
      { door_state := STATE_CERRADO, door_timer := 0, key_buffer := [0, 0, 0, 0], key_index := 0 }
      [49, 50, 51]).1 =
      { door_state := STATE_ABIERTO_TEMPORAL, door_timer := 7, key_buffer := [0, 0, 0, 0],
        key_index := 0 } :=
  ⟨(C13_auto_complete_at_capacity [49, 50, 51] 4 7
      { door_state := STATE_CERRADO, door_timer := 0, key_buffer := [0, 0, 0, 0], key_index := 0 }
      [49, 50, 51] (by decide) (by decide) rfl rfl rfl (by decide)).2.1,
    by decide⟩

/-- C13 as stated fails at two inputs. With `KEYPAD_BUFFER_SIZE = 257`,
`key_index` being an 8-bit counter that never reaches 256, 256 keystrokes `'1'`
fed from an empty keypad buffer complete no command at all. With
`KEYPAD_BUFFER_SIZE = 4` the three keystrokes `'1'`, NUL, `'3'`, none of them
`'#'`, complete the command `"1"`, not those three characters: the comparison
reads the buffer up to the NUL. -/
theorem C13_auto_complete_at_capacity_counterexample :
    ((2 ≤ 257 ∧ (List.replicate 256 49).length = 257 - 1 ∧
        ∀ k ∈ List.replicate 256 49, k ≠ 35) ∧
      (system_feed_keys [49, 50, 51, 52] 257 7
        { door_state := STATE_CERRADO, door_timer := 0, key_buffer := List.replicate 257 0,
          key_index := 0 }
        (List.replicate 256 49)).2 = []) ∧
    ((2 ≤ 4 ∧ [49, 0, 51].length = 4 - 1 ∧ ∀ k ∈ [49, 0, 51], k ≠ 35) ∧
      (system_feed_keys [49, 50, 51, 52] 4 7
        { door_state := STATE_CERRADO, door_timer := 0, key_buffer := [0, 0, 0, 0],
          key_index := 0 }
        [49, 0, 51]).2 = [[49]] ∧
      [[49]] ≠ [[49, 0, 51]]) :=
  ⟨⟨⟨by decide, by rw [List.length_replicate],
        fun k hk => by have := List.eq_of_mem_replicate hk; omega⟩,
      system_feed_keys_large [49, 50, 51, 52] 257 7 (by decide) (List.replicate 256 49)
        { door_state := STATE_CERRADO, door_timer := 0, key_buffer := List.replicate 257 0,
          key_index := 0 }
        (by decide) (fun k hk => by have := List.eq_of_mem_replicate hk; omega)⟩,
    by decide⟩

/-- C15: the keypad and UART paths interpret a completed command alike.
Whenever a call of `system_events_handler_key` completes a command `c`, the
door state and timer it leaves are those of `system_events_handler_cmd` on `c`
from the same prior state and tick. Every NUL-terminated string `c` can be put
through the comparisons of the keypad handler (with `key_buffer` holding `c`
and its NUL, and `key_index` at the NUL), and the result is the same. -/
theorem C15_keypad_and_uart_agree (PASSWORD : List Nat) (KEYPAD_BUFFER_SIZE now : Nat)
    (s : system_t) :
    (∀ (key : Nat) (c : List Nat),
      (system_events_handler_key PASSWORD KEYPAD_BUFFER_SIZE now s key).2 = some c →
      (system_events_handler_key PASSWORD KEYPAD_BUFFER_SIZE now s key).1.door_state =
        (system_events_handler_cmd PASSWORD now s c).door_state ∧
      (system_events_handler_key PASSWORD KEYPAD_BUFFER_SIZE now s key).1.door_timer =
        (system_events_handler_cmd PASSWORD now s c).door_timer) ∧
    (∀ (key : Nat) (c : List Nat), (∀ b ∈ c, b ≠ 0) → s.key_buffer = c ++ [0] →
      s.key_index = c.length → KEYPAD_BUFFER_SIZE = c.length + 1 →
      (system_events_handler_key PASSWORD KEYPAD_BUFFER_SIZE now s key).2 = some c ∧
      (system_events_handler_key PASSWORD KEYPAD_BUFFER_SIZE now s key).1.door_state =
        (system_events_handler_cmd PASSWORD now s c).door_state ∧
      (system_events_handler_key PASSWORD KEYPAD_BUFFER_SIZE now s key).1.door_timer =
        (system_events_handler_cmd PASSWORD now s c).door_timer) := by
  refine ⟨fun key c h => system_events_handler_key_door PASSWORD KEYPAD_BUFFER_SIZE now s key c h,
    ?_⟩
  intro key c hn hbuf hidx hC
  have hst : ¬ s.key_index < KEYPAD_BUFFER_SIZE - 1 := by omega
  have hc : key = 35 ∨ s.key_index ≥ KEYPAD_BUFFER_SIZE - 1 := Or.inr (by omega)
  have hset : s.key_buffer.set s.key_index 0 = c ++ [0] := by
    rw [hbuf, hidx]
    simp [List.set_append]
  have h2 : (system_events_handler_key PASSWORD KEYPAD_BUFFER_SIZE now s key).2 = some c := by
    unfold system_events_handler_key
    simp only [if_neg hst]
    rw [if_pos hc]
    simp only [hset, c_string_append_nul, c_string_of_no_nul c hn]
  exact ⟨h2, system_events_handler_key_door PASSWORD KEYPAD_BUFFER_SIZE now s key c h2⟩

/-- C15 on the password `"1234"` typed and closed with `'#'`: the completed
command is `"1234#"`, rejected by both paths; and on a key buffer holding
`"1234"`, accepted by both. -/
theorem C15_keypad_and_uart_agree_witness :
    (system_events_handler_key [49, 50, 51, 52] 32 7
      { door_state := STATE_CERRADO, door_timer := 0,
        key_buffer := [49, 50, 51, 52] ++ List.replicate 28 0, key_index := 4 } 35).2 =
      some [49, 50, 51, 52, 35] ∧
    (system_events_handler_key [49, 50, 51, 52] 32 7
      { door_state := STATE_CERRADO, door_timer := 0,
        key_buffer := [49, 50, 51, 52] ++ List.replicate 28 0, key_index := 4 } 35).1.door_state =
      (system_events_handler_cmd [49, 50, 51, 52] 7
        { door_state := STATE_CERRADO, door_timer := 0,
          key_buffer := [49, 50, 51, 52] ++ List.replicate 28 0, key_index := 4 }
        [49, 50, 51, 52, 35]).door_state ∧
    (system_events_handler_key [49, 50, 51, 52] 5 7
      { door_state := STATE_CERRADO, door_timer := 0, key_buffer := [49, 50, 51, 52] ++ [0],
        key_index := 4 } 49).1.door_state =
      (system_events_handler_cmd [49, 50, 51, 52] 7
        { door_state := STATE_CERRADO, door_timer := 0, key_buffer := [49, 50, 51, 52] ++ [0],
          key_index := 4 } [49, 50, 51, 52]).door_state :=
  ⟨by decide,
    ((C15_keypad_and_uart_agree [49, 50, 51, 52] 32 7
      { door_state := STATE_CERRADO, door_timer := 0,
        key_buffer := [49, 50, 51, 52] ++ List.replicate 28 0, key_index := 4 }).1 35
      [49, 50, 51, 52, 35] (by decide)).1,
    ((C15_keypad_and_uart_agree [49, 50, 51, 52] 5 7
      { door_state := STATE_CERRADO, door_timer := 0, key_buffer := [49, 50, 51, 52] ++ [0],
        key_index := 4 }).2 49 [49, 50, 51, 52] (by decide) rfl rfl rfl).2.1⟩

/-- C19: for every `KEYPAD_BUFFER_SIZE` of at least 2 and every sequence of
keystrokes fed from an empty keypad buffer, every completed command holds `'#'`
at most once and nowhere but as its last character; so none equals `"#*O*#"`
or `"#*C*#"`, and the door state is `STATE_ABIERTO_PERMANENTE` afterwards only
if it was so before the first keystroke. -/
theorem C19_keypad_never_completes_debug_token (PASSWORD : List Nat) (C now : Nat)
    (s : system_t) (keys : List Nat) (hC : 2 ≤ C) (hidx : s.key_index = 0)
    (hkb : s.key_buffer.length = C) :
    (∀ c ∈ (system_feed_keys PASSWORD C now s keys).2,
      c.count 35 ≤ 1 ∧ 35 ∉ c.dropLast ∧ c ≠ DEBUG_OPEN ∧ c ≠ DEBUG_CLOSE) ∧
    ((system_feed_keys PASSWORD C now s keys).1.door_state = STATE_ABIERTO_PERMANENTE →
      s.door_state = STATE_ABIERTO_PERMANENTE) := by
  have hinv : keypad_inv C s :=
    ⟨hkb, by omega, by omega, fun k hk => by omega⟩
  obtain ⟨j1, j2, _⟩ := system_feed_keys_inv PASSWORD C now hC keys s hinv
  refine ⟨fun c hc => ?_, j2⟩
  have h := j1 c hc
  refine ⟨count_le_one_of_not_mem_dropLast c h, h, ?_, ?_⟩
  · intro e; rw [e] at h; exact h (by decide)
  · intro e; rw [e] at h; exact h (by decide)

/-- C19 at `KEYPAD_BUFFER_SIZE = 32`, password `"1234"`, door closed, with the
keystrokes `'#','*','C','*','#','1','2'`: the door is not permanently open. -/
theorem C19_keypad_never_completes_debug_token_witness :
    (system_feed_keys [49, 50, 51, 52] 32 7
      { door_state := STATE_CERRADO, door_timer := 0, key_buffer := List.replicate 32 0,
        key_index := 0 }
      [35, 42, 67, 42, 35, 49, 50]).1.door_state ≠ STATE_ABIERTO_PERMANENTE :=
  fun h => absurd
    ((C19_keypad_never_completes_debug_token [49, 50, 51, 52] 32 7
      { door_state := STATE_CERRADO, door_timer := 0, key_buffer := List.replicate 32 0,
        key_index := 0 }
      [35, 42, 67, 42, 35, 49, 50] (by decide) rfl (by decide)).2 h) (by decide)

end DoorControl
